import Mathlib

set_option maxRecDepth 40000

/-!
# Verification of the migratiorm SQL-normalization core

Shallow embedding of the migratiorm repository (Go) in Lean 4:

* the normalizer pipeline (`internal/normalizer`): all text-transform stages
  and the `Normalize` driver, modelled over `List Char`;
* the comparator (`internal/comparator`): strict (positional) and unordered
  (multiset) comparison of canonical query strings;
* operation detection (`query.go`).

Go regular-expression replacements are modelled by hand-rolled structurally
recursive scanners implementing the same leftmost / greedy semantics on
`List Char`.  Go `string` values are modelled as `List Char` (the inputs in
all claims are ASCII, where bytes and runes coincide).
-/

namespace Migratiorm

/-- RE2 word character class (backslash-w): ASCII letters, digits, underscore. -/
def isWordChar (c : Char) : Bool :=
  ('a' ≤ c && c ≤ 'z') || ('A' ≤ c && c ≤ 'Z') || ('0' ≤ c && c ≤ '9') || c = '_'

/-- ASCII digit, RE2 backslash-d. -/
def isDigitChar (c : Char) : Bool :=
  '0' ≤ c && c ≤ '9'

/-- RE2 whitespace class (backslash-s): space, tab, newline, form feed,
carriage return.  (Vertical tab is not in the RE2 class.) -/
def isRe2Space (c : Char) : Bool :=
  c = ' ' || c = '\t' || c = '\n' || c = Char.ofNat 12 || c = '\r'

/-- Whitespace as used by Go `strings.TrimSpace` (`unicode.IsSpace`), restricted
to the Latin-1 range; higher Unicode space code points do not occur in any
input considered here. -/
def isGoSpace (c : Char) : Bool :=
  c = ' ' || c = '\t' || c = '\n' || c = Char.ofNat 11 || c = Char.ofNat 12 ||
    c = '\r' || c = Char.ofNat 133 || c = Char.ofNat 160

/-- ASCII lower-casing of one character (used for case-insensitive matching). -/
def asciiLowerChar (c : Char) : Char :=
  if 'A' ≤ c && c ≤ 'Z' then Char.ofNat (c.toNat + 32) else c

/-- ASCII upper-casing of one character, exactly as `detectOperation` does
(`c -= 32` for lowercase ASCII). -/
def asciiUpperChar (c : Char) : Char :=
  if 'a' ≤ c && c ≤ 'z' then Char.ofNat (c.toNat - 32) else c

/-- Case-insensitive (ASCII) test that `pat` begins the text `l`. -/
def ciStartsWith : List Char → List Char → Bool
  | [], _ => true
  | _ :: _, [] => false
  | p :: ps, c :: cs => (asciiLowerChar p = asciiLowerChar c) && ciStartsWith ps cs

/-- Case-sensitive test that `pat` begins the text `l`. -/
def litStartsWith : List Char → List Char → Bool
  | [], _ => true
  | _ :: _, [] => false
  | p :: ps, c :: cs => (p = c) && litStartsWith ps cs

/-- Substring containment, as Go `strings.Contains`. -/
def containsSub (n : List Char) : List Char → Bool
  | [] => n.isEmpty
  | c :: r => litStartsWith n (c :: r) || containsSub n r

/-- Replace the first occurrence of `needle` (nonempty in all uses) by `rep`,
as Go `strings.Replace(s, needle, rep, 1)`. -/
def replaceFirst (needle rep : List Char) : List Char → List Char
  | [] => []
  | c :: r =>
    if litStartsWith needle (c :: r) then rep ++ (c :: r).drop needle.length
    else c :: replaceFirst needle rep r

/-- Go `strings.Join` with the given separator. -/
def joinSep (sep : List Char) : List (List Char) → List Char
  | [] => []
  | [x] => x
  | x :: xs => x ++ sep ++ joinSep sep xs

/-- Go `strings.Split(s, ",")`: split at every comma (never returns an empty
list). -/
def splitOnComma : List Char → List (List Char)
  | [] => [[]]
  | c :: r =>
    if c = ',' then [] :: splitOnComma r
    else
      match splitOnComma r with
      | h :: t => (c :: h) :: t
      | [] => [[c]]

/-- Go `strings.TrimSpace`. -/
def trimSpace (l : List Char) : List Char :=
  ((l.dropWhile isGoSpace).reverse.dropWhile isGoSpace).reverse

/-- Go `<` on strings (byte-wise lexicographic; code-point order coincides for
the ASCII inputs considered here). -/
def charListLt : List Char → List Char → Bool
  | [], [] => false
  | [], _ :: _ => true
  | _ :: _, [] => false
  | a :: as, b :: bs =>
    if a = b then charListLt as bs else decide (a < b)

/-- Non-strict version of `charListLt`, used to drive `List.insertionSort`. -/
def charListLe (a b : List Char) : Bool :=
  !(charListLt b a)

end Migratiorm

namespace Comparator

/-- `DiffType` from `internal/comparator/comparator.go`. -/
inductive DiffType where
  | diffMatch
  | diffMissing
  | diffExtra
  | diffModified
deriving DecidableEq, Repr

/-- `Difference` from `internal/comparator/comparator.go`. -/
structure Difference where
  dtype : DiffType
  index : Nat
  expectedQ : String
  actualQ : String
deriving DecidableEq, Repr

/-- `CompareResult` from `internal/comparator/comparator.go`. -/
structure CompareResult where
  equal : Bool
  differences : List Difference
deriving DecidableEq, Repr

/-- `CompareMode` from `internal/comparator/comparator.go`. -/
inductive CompareMode where
  | strict
  | unordered
deriving DecidableEq, Repr

/-- The body of the `compareStrict` loop at index `i`. -/
def strictDiffAt (expected actual : List String) (i : Nat) : Difference :=
  if expected.length ≤ i then
    { dtype := .diffExtra, index := i, expectedQ := "", actualQ := actual.getD i "" }
  else if actual.length ≤ i then
    { dtype := .diffMissing, index := i, expectedQ := expected.getD i "", actualQ := "" }
  else if expected.getD i "" ≠ actual.getD i "" then
    { dtype := .diffModified, index := i, expectedQ := expected.getD i "",
      actualQ := actual.getD i "" }
  else
    { dtype := .diffMatch, index := i, expectedQ := expected.getD i "",
      actualQ := actual.getD i "" }

/-- `compareStrict`: walk both sequences by index up to the longer length.
`Equal` starts `true` and is cleared on any non-match branch, which is the same
as requiring every produced difference to be a match. -/
def compareStrict (expected actual : List String) : CompareResult :=
  let diffs := (List.range (max actual.length expected.length)).map
    (strictDiffAt expected actual)
  { equal := diffs.all (fun d => d.dtype = .diffMatch), differences := diffs }

/-- First loop of `compareUnordered`: walk `expected`, consuming availability
from the map of `actual` counts; `idx` increments on every iteration. -/
def goExpLoop : List String → (String → Nat) → Nat → List Difference × Bool
  | [], _, _ => ([], true)
  | q :: rest, am, idx =>
    if am q = 0 then
      (⟨.diffMissing, idx, q, ""⟩ :: (goExpLoop rest am (idx + 1)).1, false)
    else
      (⟨.diffMatch, idx, q, q⟩ ::
          (goExpLoop rest (fun s => if s = q then am s - 1 else am s) (idx + 1)).1,
        (goExpLoop rest (fun s => if s = q then am s - 1 else am s) (idx + 1)).2)

/-- Second loop of `compareUnordered`: walk `actual`, consuming availability
from the map of `expected` counts; `idx` increments only when an extra record
is emitted. -/
def goActLoop : List String → (String → Nat) → Nat → List Difference × Bool
  | [], _, _ => ([], true)
  | q :: rest, em, idx =>
    if em q = 0 then
      (⟨.diffExtra, idx, "", q⟩ :: (goActLoop rest em (idx + 1)).1, false)
    else
      goActLoop rest (fun s => if s = q then em s - 1 else em s) idx

/-- `compareUnordered`: multiset comparison via the two availability maps.
The Go map of counts is modelled by the function `fun s => l.count s`; counts
never go below zero in the loops (decrements are guarded). -/
def compareUnordered (expected actual : List String) : CompareResult :=
  let r1 := goExpLoop expected (fun s => actual.count s) 0
  let r2 := goActLoop actual (fun s => expected.count s) expected.length
  { equal := r1.2 && r2.2, differences := r1.1 ++ r2.1 }

/-- `Comparator.Compare` dispatching on the mode (default branch is strict). -/
def Compare (mode : CompareMode) (expected actual : List String) : CompareResult :=
  match mode with
  | .unordered => compareUnordered expected actual
  | .strict => compareStrict expected actual

end Comparator

namespace Migratiorm

/-! ## Normalization stages (`internal/normalizer`) -/

/-- State machine for `normalizeWhitespace` (regex backslash-s+ replaced by a
single space): the flag records whether we are inside a whitespace run whose
single replacement space was already emitted. -/
def wsGo : Bool → List Char → List Char
  | _, [] => []
  | inRun, c :: r =>
    if isRe2Space c then
      if inRun then wsGo true r else ' ' :: wsGo true r
    else c :: wsGo false r

/-- `normalizeWhitespace`: replace every maximal whitespace run by one space. -/
def normalizeWhitespace (l : List Char) : List Char :=
  wsGo false l

/-- Line-comment removal (regex `--` followed by non-newline chars): the flag
records whether we are inside a comment (skipping up to, but not including,
the next newline). -/
def rmLineGo : Bool → List Char → List Char
  | _, [] => []
  | true, c :: r => if c = '\n' then '\n' :: rmLineGo false r else rmLineGo true r
  | false, '-' :: '-' :: r => rmLineGo true r
  | false, c :: r => c :: rmLineGo false r

/-- Block-comment removal (regex slash-star, lazily up to the first star-slash).
Inside a candidate comment the consumed characters are accumulated so that an
unclosed comment (no match) can be restored verbatim at end of input. -/
def rmBlockGo : Option (List Char) → List Char → List Char
  | none, [] => []
  | none, '/' :: '*' :: r => rmBlockGo (some []) r
  | none, c :: r => c :: rmBlockGo none r
  | some acc, [] => '/' :: '*' :: acc.reverse
  | some _, '*' :: '/' :: r => rmBlockGo none r
  | some acc, c :: r => rmBlockGo (some (c :: acc)) r

/-- `removeComments`: strip line comments, then block comments. -/
def removeComments (l : List Char) : List Char :=
  rmBlockGo none (rmLineGo false l)

/-- Scanner for one quote-stripping pass of `removeQuotes` (regex `open
([^close]+) close` replaced by the inner text).  `openc`/`closec` are the
delimiters; when inside a candidate span the consumed inner text is
accumulated for restoration on failure.  An empty span does not match: for
symmetric delimiters the closing character is retried as a new opener, for
brackets both characters are emitted literally. -/
def stripQuoteGo (openc closec : Char) : Option (List Char) → List Char → List Char
  | none, [] => []
  | none, c :: r =>
    if c = openc then stripQuoteGo openc closec (some []) r
    else c :: stripQuoteGo openc closec none r
  | some acc, [] => openc :: acc.reverse
  | some acc, c :: r =>
    if c = closec then
      match acc with
      | [] =>
        if openc = closec then openc :: stripQuoteGo openc closec (some []) r
        else openc :: closec :: stripQuoteGo openc closec none r
      | _ => acc.reverse ++ stripQuoteGo openc closec none r
    else stripQuoteGo openc closec (some (c :: acc)) r

/-- `removeQuotes`: strip backticks, then double quotes, then brackets. -/
def removeQuotes (l : List Char) : List Char :=
  stripQuoteGo '[' ']' none
    (stripQuoteGo '"' '"' none (stripQuoteGo '\x60' '\x60' none l))

/-- Decimal digits of a natural number (via fuel; `natChars n` is the usual
base-10 numeral). -/
def natCharsAux : Nat → Nat → List Char
  | 0, _ => []
  | f + 1, n =>
    if n < 10 then [Char.ofNat (48 + n)]
    else natCharsAux f (n / 10) ++ [Char.ofNat (48 + n % 10)]

/-- Decimal numeral of a natural number. -/
def natChars (n : Nat) : List Char :=
  natCharsAux (n + 1) n

/-- The opaque placeholder token `__QUOTED_k__` of
`removeQuotesPreservingCase`. -/
def phStr (k : Nat) : List Char :=
  "__QUOTED_".data ++ natChars k ++ "__".data

/-- One quote-extraction pass of `removeQuotesPreservingCase`: like
`stripQuoteGo`, but each matched span is replaced by `phStr k` for the running
counter `k`, and the association `(k, inner text)` is recorded in match order.
Returns the rewritten text, the recorded pairs, and the next counter value. -/
def extractQuoteGo (openc closec : Char) :
    Nat → Option (List Char) → List Char → List Char × List (Nat × List Char) × Nat
  | k, none, [] => ([], [], k)
  | k, none, c :: r =>
    if c = openc then extractQuoteGo openc closec k (some []) r
    else
      let (o, m, k') := extractQuoteGo openc closec k none r
      (c :: o, m, k')
  | k, some acc, [] => (openc :: acc.reverse, [], k)
  | k, some acc, c :: r =>
    if c = closec then
      match acc with
      | [] =>
        if openc = closec then
          let (o, m, k') := extractQuoteGo openc closec k (some []) r
          (openc :: o, m, k')
        else
          let (o, m, k') := extractQuoteGo openc closec k none r
          (openc :: closec :: o, m, k')
      | _ =>
        let (o, m, k') := extractQuoteGo openc closec (k + 1) none r
        (phStr k ++ o, (k, acc.reverse) :: m, k')
    else extractQuoteGo openc closec k (some (c :: acc)) r

/-- The fixed keyword table `sqlKeywords`. -/
def sqlKeywords : List (List Char) :=
  ["SELECT".data, "FROM".data, "WHERE".data, "AND".data, "OR".data, "NOT".data,
   "IN".data, "IS".data, "NULL".data,
   "INSERT".data, "INTO".data, "VALUES".data, "UPDATE".data, "SET".data, "DELETE".data,
   "JOIN".data, "LEFT".data, "RIGHT".data, "INNER".data, "OUTER".data, "CROSS".data,
   "ON".data,
   "GROUP".data, "BY".data, "HAVING".data, "ORDER".data, "ASC".data, "DESC".data,
   "LIMIT".data, "OFFSET".data,
   "AS".data, "DISTINCT".data, "ALL".data, "UNION".data, "INTERSECT".data, "EXCEPT".data,
   "CREATE".data, "ALTER".data, "DROP".data, "TABLE".data, "INDEX".data, "VIEW".data,
   "PRIMARY".data, "KEY".data, "FOREIGN".data, "REFERENCES".data, "CONSTRAINT".data,
   "LIKE".data, "BETWEEN".data, "EXISTS".data, "CASE".data, "WHEN".data, "THEN".data,
   "ELSE".data, "END".data,
   "COUNT".data, "SUM".data, "AVG".data, "MIN".data, "MAX".data, "COALESCE".data,
   "NULLIF".data,
   "TRUE".data, "FALSE".data, "RETURNING".data]

/-- Try to match, case-insensitively, the word sequence `ws` separated by
whitespace runs (regex `w1 backslash-s+ w2 ...`) at the head of `l`; return
the remainder on success.  Word boundaries at the ends are checked by the
caller. -/
def matchWordSeq : List (List Char) → List Char → Option (List Char)
  | [], l => some l
  | w :: ws, l =>
    if ciStartsWith w l then
      let r := l.drop w.length
      match ws with
      | [] => some r
      | _ :: _ =>
        let sp := r.takeWhile isRe2Space
        if sp.isEmpty then none
        else matchWordSeq ws (r.drop sp.length)
    else none

/-- `true` when the text starts at a position that ends a word-boundary match:
empty, or a non-word character. -/
def boundaryOk : List Char → Bool
  | [] => true
  | c :: _ => !isWordChar c

/-- Fuel-driven scanner replacing every word-boundary-delimited,
case-insensitive occurrence of the word sequence `seq` by `rep` (regex
`(?i) b w1 s+ w2 ... b` with word boundaries, replaced by a literal).
`prevW` records whether the previous character of the original text is a word
character.  Fuel at least the length of the text suffices. -/
def seqReplGo (seq : List (List Char)) (rep : List Char) :
    Nat → Bool → List Char → List Char
  | 0, _, l => l
  | _ + 1, _, [] => []
  | f + 1, prevW, c :: r =>
    match if prevW then none else matchWordSeq seq (c :: r) with
    | some rest =>
      if boundaryOk rest then rep ++ seqReplGo seq rep f true rest
      else c :: seqReplGo seq rep f (isWordChar c) r
    | none => c :: seqReplGo seq rep f (isWordChar c) r

/-- Word-boundary, case-insensitive replace-all of a word sequence. -/
def seqRepl (seq : List (List Char)) (rep : List Char) (l : List Char) : List Char :=
  seqReplGo seq rep l.length false l

/-- `uppercaseKeywords`: for each keyword in table order, replace its
case-insensitive whole-word occurrences with the canonical (uppercase)
spelling. -/
def uppercaseKeywords (l : List Char) : List Char :=
  sqlKeywords.foldl (fun acc kw => seqRepl [kw] kw acc) l

/-- States of the placeholder-marker scanner: scanning normally, just after a
marker head character, or inside an already-replaced marker run. -/
inductive MState where
  | norm
  | afterH
  | inRun

/-- Scanner replacing every occurrence of the marker `h` followed by a
nonempty run of characters satisfying `p` with a single `?` (regexes
dollar-digits, colon-word, at-word of `unifyPlaceholders`). -/
def markerGo (h : Char) (p : Char → Bool) : MState → List Char → List Char
  | .norm, [] => []
  | .norm, c :: r =>
    if c = h then markerGo h p .afterH r else c :: markerGo h p .norm r
  | .afterH, [] => [h]
  | .afterH, c :: r =>
    if c = h then h :: markerGo h p .afterH r
    else if p c then '?' :: markerGo h p .inRun r
    else h :: c :: markerGo h p .norm r
  | .inRun, [] => []
  | .inRun, c :: r =>
    if p c then markerGo h p .inRun r
    else if c = h then markerGo h p .afterH r
    else c :: markerGo h p .norm r

/-- `unifyPlaceholders`: positional `$n`, then named `:name`, then `@name`
markers are each rewritten to bare `?`. -/
def unifyPlaceholders (l : List Char) : List Char :=
  markerGo '@' isWordChar .norm
    (markerGo ':' isWordChar .norm
      (markerGo '$' isDigitChar .norm l))

/-- `removeQuotesPreservingCase`, parametrized by the order in which the
placeholder map is iterated during restoration.  The Go source iterates a
`map[string]string` with `range`, whose order is unspecified; `reorder`
selects a concrete iteration order of the recorded `(counter, inner)` pairs
(`id` is insertion order).  Extraction processes backticks, then double
quotes, then brackets, sharing one counter; keywords are uppercased while the
placeholders stand in; then each placeholder is replaced (first occurrence)
by its original inner text. -/
def removeQuotesPreservingCaseOrd
    (reorder : List (Nat × List Char) → List (Nat × List Char)) (l : List Char) :
    List Char :=
  let (t1, m1, k1) := extractQuoteGo '\x60' '\x60' 0 none l
  let (t2, m2, k2) := extractQuoteGo '"' '"' k1 none t1
  let (t3, m3, _) := extractQuoteGo '[' ']' k2 none t2
  let up := uppercaseKeywords t3
  (reorder (m1 ++ m2 ++ m3)).foldl
    (fun acc km => replaceFirst (phStr km.1) km.2 acc) up

/-- `removeQuotesPreservingCase` with the insertion-order iteration of the
placeholder map. -/
def removeQuotesPreservingCase (l : List Char) : List Char :=
  removeQuotesPreservingCaseOrd id l

/-- Fuel-driven replace-all scanner: at every position, `m` either yields a
replacement together with the remainder after the match (every matcher used
consumes at least one character), or the scan advances one character.  Fuel at
least the length of the text suffices. -/
def scanRepl (m : List Char → Option (List Char × List Char)) :
    Nat → List Char → List Char
  | 0, l => l
  | _ + 1, [] => []
  | f + 1, c :: r =>
    match m (c :: r) with
    | some (out, rest) => out ++ scanRepl m f rest
    | none => c :: scanRepl m f r

/-- Replace-all driver with sufficient fuel. -/
def scanReplTop (m : List Char → Option (List Char × List Char)) (l : List Char) :
    List Char :=
  scanRepl m l.length l

/-- Lazy column search of `normalizeSelectColumns`: the shortest nonempty
newline-free column list followed by `backslash-s+ FROM` with a word boundary.
Returns the (discarded) column text, the captured whitespace-plus-FROM text,
and the remainder. -/
def findCols : List Char → Option (List Char × List Char × List Char)
  | [] => none
  | c :: r =>
    if c = '\n' then none
    else
      match
        (let sp := r.takeWhile isRe2Space
         if sp.isEmpty then none
         else
           let t2 := r.drop sp.length
           if ciStartsWith "FROM".data t2 && boundaryOk (t2.drop 4) then
             some (sp ++ t2.take 4, t2.drop 4)
           else none) with
      | some (g4, rest) => some ([c], g4, rest)
      | none =>
        match findCols r with
        | some (cols, g4, rest) => some (c :: cols, g4, rest)
        | none => none

/-- Matcher for `normalizeSelectColumns` (regex `(?i)(SELECT backslash-s+)
(DISTINCT backslash-s+)? (.+?) (backslash-s+ FROM b)`): returns the
replacement (column list collapsed to `*`) and the remainder. -/
def matchSelectCols (l : List Char) : Option (List Char × List Char) :=
  if ciStartsWith "SELECT".data l then
    let sel := l.take 6
    let r1 := l.drop 6
    let sp1 := r1.takeWhile isRe2Space
    if sp1.isEmpty then none
    else
      let g1 := sel ++ sp1
      let r2 := r1.drop sp1.length
      let tryDistinct :=
        if ciStartsWith "DISTINCT".data r2 then
          let dist := r2.take 8
          let r3 := r2.drop 8
          let sp2 := r3.takeWhile isRe2Space
          if sp2.isEmpty then none
          else
            match findCols (r3.drop sp2.length) with
            | some (_, g4, rest) => some (dist ++ sp2, g4, rest)
            | none => none
        else none
      match tryDistinct with
      | some (g2, g4, rest) => some (g1 ++ g2 ++ '*' :: g4, rest)
      | none =>
        match findCols r2 with
        | some (_, g4, rest) => some (g1 ++ '*' :: g4, rest)
        | none => none
  else none

/-- `normalizeSelectColumns`: collapse each `SELECT [DISTINCT] cols FROM` span
to `SELECT [DISTINCT] * FROM`. -/
def normalizeSelectColumns (l : List Char) : List Char :=
  scanReplTop matchSelectCols l

/-- `normalizeJoinSyntax`: canonicalize JOIN spellings. -/
def normalizeJoinSyntax (l : List Char) : List Char :=
  seqRepl ["FULL".data, "OUTER".data, "JOIN".data] "FULL JOIN".data
    (seqRepl ["RIGHT".data, "OUTER".data, "JOIN".data] "RIGHT JOIN".data
      (seqRepl ["LEFT".data, "OUTER".data, "JOIN".data] "LEFT JOIN".data
        (seqRepl ["INNER".data, "JOIN".data] "JOIN".data l)))

/-- Matcher for the first `normalizeOrderByAsc` regex
(`(?i) backslash-s+ ASC backslash-s* ,` replaced by a comma). -/
def matchAscComma (l : List Char) : Option (List Char × List Char) :=
  let sp := l.takeWhile isRe2Space
  if sp.isEmpty then none
  else
    let t := l.drop sp.length
    if ciStartsWith "ASC".data t then
      let t2 := t.drop 3
      let sp2 := t2.takeWhile isRe2Space
      match t2.drop sp2.length with
      | ',' :: rest => some ([','], rest)
      | _ => none
    else none

/-- Matcher for the second `normalizeOrderByAsc` regex:
`(?i) backslash-s+ ASC ( backslash-s* $ | backslash-s+ LIMIT b | ... |
backslash-s* rparen )`, replaced by the captured group (alternatives tried in
source order). -/
def matchAscTail (l : List Char) : Option (List Char × List Char) :=
  let sp := l.takeWhile isRe2Space
  if sp.isEmpty then none
  else
    let t := l.drop sp.length
    if ciStartsWith "ASC".data t then
      let t2 := t.drop 3
      let sp2 := t2.takeWhile isRe2Space
      let t3 := t2.drop sp2.length
      if t3.isEmpty then some (sp2, [])
      else
        let tryKw := fun (kw : List Char) =>
          if !sp2.isEmpty && ciStartsWith kw t3 && boundaryOk (t3.drop kw.length) then
            some (sp2 ++ t3.take kw.length, t3.drop kw.length)
          else none
        match tryKw "LIMIT".data with
        | some x => some x
        | none =>
          match tryKw "OFFSET".data with
          | some x => some x
          | none =>
            match tryKw "HAVING".data with
            | some x => some x
            | none =>
              match tryKw "UNION".data with
              | some x => some x
              | none =>
                match t3 with
                | ')' :: rest => some (sp2 ++ [')'], rest)
                | _ => none
    else none

/-- `normalizeOrderByAsc`: drop redundant ASC qualifiers, then clean up
whitespace. -/
def normalizeOrderByAsc (l : List Char) : List Char :=
  normalizeWhitespace (scanReplTop matchAscTail (scanReplTop matchAscComma l))

/-- Matcher for `removeReturningClause`
(`(?i) backslash-s+ RETURNING backslash-s+ .+$`, replaced by nothing; `.`
does not match a newline and `$` anchors at end of text). -/
def matchReturning (l : List Char) : Option (List Char × List Char) :=
  let sp := l.takeWhile isRe2Space
  if sp.isEmpty then none
  else
    let t := l.drop sp.length
    if ciStartsWith "RETURNING".data t then
      let r0 := t.drop 9
      let run := r0.takeWhile isRe2Space
      if run.isEmpty then none
      else
        let rem := r0.drop run.length
        if rem.isEmpty then
          if 2 ≤ run.length ∧ run.getLast? ≠ some '\n' then some ([], []) else none
        else if rem.contains '\n' then none
        else some ([], [])
    else none

/-- `removeReturningClause`. -/
def removeReturningClause (l : List Char) : List Char :=
  scanReplTop matchReturning l

/-- The rebuild closure of `sortInsertColumns`, applied to the four captured
groups of a match: split both comma lists, trim entries, and if the counts
agree re-emit column/value pairs sorted by column name (Go sorts with `<`,
whose tie order `sort.Slice` leaves unspecified; insertion sort realizes one
admissible order), else return the matched text unchanged. -/
def rebuildInsert (g1 cols g3 vals : List Char) : List Char :=
  let cs := (splitOnComma cols).map trimSpace
  let vs := (splitOnComma vals).map trimSpace
  if cs.length ≠ vs.length then
    g1 ++ '(' :: cols ++ ')' :: g3 ++ '(' :: vals ++ [')']
  else
    let ps := (cs.zip vs).insertionSort (fun a b => charListLe a.1 b.1 = true)
    g1 ++ '(' :: joinSep ", ".data (ps.map Prod.fst) ++ ')' :: g3 ++
      '(' :: joinSep ", ".data (ps.map Prod.snd) ++ [')']

/-- Parenthesized group of the `sortInsertColumns` regex:
`lparen ([^)]+) rparen` — an opening parenthesis, a nonempty run of
non-`)` characters (captured), and the closing parenthesis. -/
def parenGroup (l : List Char) : Option (List Char × List Char) :=
  match l with
  | '(' :: t =>
    let inner := t.takeWhile (fun c => c ≠ ')')
    if inner.isEmpty then none
    else
      match t.drop inner.length with
      | ')' :: rest => some (inner, rest)
      | _ => none
  | _ => none

/-- Head of the `sortInsertColumns` regex:
`(?i) (INSERT backslash-s+ INTO backslash-s+ backslash-w+ backslash-s*)`,
returning the captured group text and the remainder. -/
def matchInsertHead (l : List Char) : Option (List Char × List Char) :=
  if ciStartsWith "INSERT".data l then
    let t1 := l.drop 6
    let sp1 := t1.takeWhile isRe2Space
    if sp1.isEmpty then none
    else
      let t2 := t1.drop sp1.length
      if ciStartsWith "INTO".data t2 then
        let t3 := t2.drop 4
        let sp2 := t3.takeWhile isRe2Space
        if sp2.isEmpty then none
        else
          let t4 := t3.drop sp2.length
          let w := t4.takeWhile isWordChar
          if w.isEmpty then none
          else
            let t5 := t4.drop w.length
            let sp3 := t5.takeWhile isRe2Space
            some (l.take (6 + sp1.length + 4 + sp2.length + w.length + sp3.length),
              t5.drop sp3.length)
      else none
  else none

/-- Middle of the `sortInsertColumns` regex:
`((?i) backslash-s* VALUES backslash-s*)`, returning the captured group text
and the remainder. -/
def matchValuesSep (l : List Char) : Option (List Char × List Char) :=
  let sp4 := l.takeWhile isRe2Space
  let t9 := l.drop sp4.length
  if ciStartsWith "VALUES".data t9 then
    let t10 := t9.drop 6
    let sp5 := t10.takeWhile isRe2Space
    some (sp4 ++ t9.take 6 ++ sp5, t10.drop sp5.length)
  else none

/-- Matcher for the `sortInsertColumns` regex
`(?i)(INSERT backslash-s+ INTO backslash-s+ backslash-w+ backslash-s*)
lparen([^)]+)rparen (backslash-s* VALUES backslash-s*) lparen([^)]+)rparen`,
with the replacement computed by `rebuildInsert`. -/
def matchInsertCols (l : List Char) : Option (List Char × List Char) :=
  (matchInsertHead l).bind fun g1t6 =>
    (parenGroup g1t6.2).bind fun colst8 =>
      (matchValuesSep colst8.2).bind fun g3t10 =>
        (parenGroup g3t10.2).bind fun valsrest =>
          some (rebuildInsert g1t6.1 colst8.1 g3t10.1 valsrest.1, valsrest.2)

/-- `sortInsertColumns`. -/
def sortInsertColumns (l : List Char) : List Char :=
  scanReplTop matchInsertCols l

/-- `splitSetClause`: split at top-level commas, tracking parenthesis depth
(Go uses an `int` depth that may go negative). -/
def splitSetGo : Int → List Char → List Char → List (List Char)
  | _, cur, [] => if cur.isEmpty then [] else [cur.reverse]
  | d, cur, c :: r =>
    if c = '(' then splitSetGo (d + 1) (c :: cur) r
    else if c = ')' then splitSetGo (d - 1) (c :: cur) r
    else if c = ',' then
      if d = 0 then cur.reverse :: splitSetGo d [] r else splitSetGo d (c :: cur) r
    else splitSetGo d (c :: cur) r

/-- `splitSetClause` from the source. -/
def splitSetClause (l : List Char) : List (List Char) :=
  splitSetGo 0 [] l

/-- Split a trimmed SET part at its first `=` (Go `strings.Index`). -/
def splitAtEq (p : List Char) : Option (List Char × List Char) :=
  let pre := p.takeWhile (fun c => c ≠ '=')
  if pre.length = p.length then none else some (pre, p.drop (pre.length + 1))

/-- `parseSetAssignments`, returning `none` as soon as one part has no `=`
(Go returns `nil`). -/
def parseSetAux : List (List Char) → Option (List (List Char × List Char))
  | [] => some []
  | p :: ps =>
    match splitAtEq (trimSpace p) with
    | none => none
    | some (a, b) =>
      match parseSetAux ps with
      | none => none
      | some rest => some ((trimSpace a, trimSpace b) :: rest)

/-- `parseSetAssignments` (a failed parse yields the empty list, triggering
the unchanged path of `sortUpdateSetClause`). -/
def parseSetAssignments (set : List Char) : List (List Char × List Char) :=
  (parseSetAux (splitSetClause set)).getD []

/-- `sortUpdateSetClause`. -/
def sortUpdateSetClause (pre set suf : List Char) : List Char :=
  let asg := parseSetAssignments set
  if asg.isEmpty then pre ++ set ++ suf
  else
    let sorted := asg.insertionSort (fun a b => charListLe a.1 b.1 = true)
    pre ++ joinSep ", ".data (sorted.map fun a => a.1 ++ " = ".data ++ a.2) ++ suf

/-- Shared head of both `sortUpdateColumns` regexes:
`(?i) UPDATE backslash-s+ backslash-w+ backslash-s+ SET backslash-s+`,
returning the captured prefix text and the remainder. -/
def matchUpdateHead (l : List Char) : Option (List Char × List Char) :=
  if ciStartsWith "UPDATE".data l then
    let t1 := l.drop 6
    let sp1 := t1.takeWhile isRe2Space
    if sp1.isEmpty then none
    else
      let t2 := t1.drop sp1.length
      let w := t2.takeWhile isWordChar
      if w.isEmpty then none
      else
        let t3 := t2.drop w.length
        let sp2 := t3.takeWhile isRe2Space
        if sp2.isEmpty then none
        else
          let t4 := t3.drop sp2.length
          if ciStartsWith "SET".data t4 then
            let t5 := t4.drop 3
            let sp3 := t5.takeWhile isRe2Space
            if sp3.isEmpty then none
            else
              some (l.take (6 + sp1.length + w.length + sp2.length + 3 + sp3.length),
                t5.drop sp3.length)
          else none
  else none

/-- Lazy SET-clause search for the WHERE variant: the shortest nonempty
newline-free text followed by `backslash-s+ WHERE b`, whose captured suffix
extends greedily up to (not across) a newline. -/
def findSetWhere : List Char → Option (List Char × List Char)
  | [] => none
  | c :: r =>
    if c = '\n' then none
    else
      match
        (let sp := r.takeWhile isRe2Space
         if sp.isEmpty then none
         else
           let t2 := r.drop sp.length
           if ciStartsWith "WHERE".data t2 && boundaryOk (t2.drop 5) then
             some (sp ++ t2.take 5 ++ (t2.drop 5).takeWhile (fun c => c ≠ '\n'))
           else none) with
      | some g3 => some ([c], g3)
      | none =>
        match findSetWhere r with
        | some (s, g3) => some (c :: s, g3)
        | none => none

/-- First match of the WHERE-variant regex
`(?i)(UPDATE backslash-s+ backslash-w+ backslash-s+ SET backslash-s+)(.+?)
(backslash-s+ WHERE b .*)`. -/
def findFirstUpdWhere : Nat → List Char → Option (List Char × List Char × List Char)
  | 0, _ => none
  | _ + 1, [] => none
  | f + 1, c :: r =>
    match
      (match matchUpdateHead (c :: r) with
       | some (g1, t) =>
         match findSetWhere t with
         | some (set, g3) => some (g1, set, g3)
         | none => none
       | none => none) with
    | some g => some g
    | none => findFirstUpdWhere f r

/-- First match of the WHERE-less regex
`(?i)(UPDATE backslash-s+ backslash-w+ backslash-s+ SET backslash-s+)(.+)$`. -/
def findFirstUpdNoWhere : Nat → List Char → Option (List Char × List Char)
  | 0, _ => none
  | _ + 1, [] => none
  | f + 1, c :: r =>
    match
      (match matchUpdateHead (c :: r) with
       | some (g1, t) =>
         if t.isEmpty || t.contains '\n' then none else some (g1, t)
       | none => none) with
    | some g => some g
    | none => findFirstUpdNoWhere f r

/-- `sortUpdateColumns`: note that the Go source rebuilds the result from the
captured groups of the first match only, so any text outside the match is
dropped. -/
def sortUpdateColumns (l : List Char) : List Char :=
  match findFirstUpdWhere l.length l with
  | some (g1, set, g3) => sortUpdateSetClause g1 set g3
  | none =>
    match findFirstUpdNoWhere l.length l with
    | some (g1, set) => sortUpdateSetClause g1 set []
    | none => l

/-- The JOIN pattern list of `hasJoin`. -/
def joinPatterns : List (List Char) :=
  [" JOIN ".data, " LEFT JOIN ".data, " RIGHT JOIN ".data, " INNER JOIN ".data,
   " OUTER JOIN ".data, " CROSS JOIN ".data, " FULL JOIN ".data, " NATURAL JOIN ".data]

/-- `hasJoin` (on the upper-cased query). -/
def hasJoin (upper : List Char) : Bool :=
  joinPatterns.any (fun p => containsSub p upper)

/-- `hasSubquery` (on the upper-cased query). -/
def hasSubquery (upper : List Char) : Bool :=
  containsSub "(SELECT ".data upper || containsSub "( SELECT ".data upper

/-- Matcher at one position for the `hasMultipleTables` regex
`b FROM backslash-s+ backslash-w+ backslash-s* ,` (case-sensitive, applied to
the upper-cased query). -/
def matchFromComma (l : List Char) : Bool :=
  litStartsWith "FROM".data l &&
    (let t := l.drop 4
     let sp := t.takeWhile isRe2Space
     !sp.isEmpty &&
       (let t2 := t.drop sp.length
        let w := t2.takeWhile isWordChar
        !w.isEmpty &&
          (let t3 := t2.drop w.length
           match t3.drop (t3.takeWhile isRe2Space).length with
           | ',' :: _ => true
           | _ => false)))

/-- Word-boundary-aware existence scan for `matchFromComma`. -/
def mtScan : Bool → List Char → Bool
  | _, [] => false
  | prevW, c :: r => (!prevW && matchFromComma (c :: r)) || mtScan (isWordChar c) r

/-- `hasMultipleTables` (on the upper-cased query). -/
def hasMultipleTables (upper : List Char) : Bool :=
  mtScan false upper

/-- Tail of the `hasSchemaPrefix` regex after the keyword alternative:
`backslash-s+ backslash-w+ . backslash-w+`. -/
def schemaAfterAlt (t : List Char) : Bool :=
  let sp := t.takeWhile isRe2Space
  !sp.isEmpty &&
    (let t2 := t.drop sp.length
     let w := t2.takeWhile isWordChar
     !w.isEmpty &&
       (match t2.drop w.length with
        | '.' :: t3 => !(t3.takeWhile isWordChar).isEmpty
        | _ => false))

/-- Matcher at one position for the `hasSchemaPrefix` regex
`(?i) b (FROM|UPDATE|INSERT backslash-s+ INTO) backslash-s+ backslash-w+ .
backslash-w+`. -/
def matchSchemaAt (l : List Char) : Bool :=
  (ciStartsWith "FROM".data l && schemaAfterAlt (l.drop 4)) ||
  (ciStartsWith "UPDATE".data l && schemaAfterAlt (l.drop 6)) ||
  (ciStartsWith "INSERT".data l &&
    (let t := l.drop 6
     let sp := t.takeWhile isRe2Space
     !sp.isEmpty && ciStartsWith "INTO".data (t.drop sp.length) &&
       schemaAfterAlt ((t.drop sp.length).drop 4)))

/-- Word-boundary-aware existence scan for `matchSchemaAt`. -/
def schemaScan : Bool → List Char → Bool
  | _, [] => false
  | prevW, c :: r => (!prevW && matchSchemaAt (c :: r)) || schemaScan (isWordChar c) r

/-- `hasSchemaPrefix` (on the original query). -/
def hasSchemaPrefix (q : List Char) : Bool :=
  schemaScan false q

/-- Matcher returning the word captured by `(?i) b KW backslash-s+
(backslash-w+)` for a literal keyword. -/
def matchKwTable (kw : List Char) (l : List Char) : Option (List Char) :=
  if ciStartsWith kw l then
    let t := l.drop kw.length
    let sp := t.takeWhile isRe2Space
    if sp.isEmpty then none
    else
      let w := (t.drop sp.length).takeWhile isWordChar
      if w.isEmpty then none else some w
  else none

/-- Matcher for `(?i) b INSERT backslash-s+ INTO backslash-s+
(backslash-w+)`. -/
def matchInsertIntoTable (l : List Char) : Option (List Char) :=
  if ciStartsWith "INSERT".data l then
    let t := l.drop 6
    let sp := t.takeWhile isRe2Space
    if sp.isEmpty then none else matchKwTable "INTO".data (t.drop sp.length)
  else none

/-- First-match scan with word-boundary tracking for table-name extraction. -/
def extrScan (m : List Char → Option (List Char)) : Bool → List Char → Option (List Char)
  | _, [] => none
  | prevW, c :: r =>
    match if prevW then none else m (c :: r) with
    | some w => some w
    | none => extrScan m (isWordChar c) r

/-- `extractTableName`: FROM, then UPDATE, then INSERT INTO; empty when none
matches. -/
def extractTableName (q : List Char) : List Char :=
  match extrScan (matchKwTable "FROM".data) false q with
  | some w => w
  | none =>
    match extrScan (matchKwTable "UPDATE".data) false q with
    | some w => w
    | none =>
      match extrScan matchInsertIntoTable false q with
      | some w => w
      | none => []

/-- Matcher at one position for the qualifier-stripping regex
`(?i) b tbl . (backslash-w+)`, yielding the retained column word and the
remainder. -/
def matchQual (tbl : List Char) (l : List Char) : Option (List Char × List Char) :=
  if ciStartsWith tbl l then
    match l.drop tbl.length with
    | '.' :: t =>
      let w := t.takeWhile isWordChar
      if w.isEmpty then none else some (w, t.drop w.length)
    | _ => none
  else none

/-- Fuel-driven replace-all for `matchQual`, with word-boundary tracking. -/
def qualGo (tbl : List Char) : Nat → Bool → List Char → List Char
  | 0, _, l => l
  | _ + 1, _, [] => []
  | f + 1, prevW, c :: r =>
    match if prevW then none else matchQual tbl (c :: r) with
    | some (w, rest) => w ++ qualGo tbl f true rest
    | none => c :: qualGo tbl f (isWordChar c) r

/-- `normalizeTableQualifiers` from `internal/normalizer/syntax.go`. -/
def normalizeTableQualifiers (q : List Char) : List Char :=
  let upper := q.map asciiUpperChar
  if hasJoin upper then q
  else if hasSubquery upper then q
  else if hasMultipleTables upper then q
  else if hasSchemaPrefix q then q
  else
    let tbl := extractTableName q
    if tbl.isEmpty then q
    else qualGo tbl q.length false q

/-- `Options` from the normalizer source (field names as in Go). -/
structure Options where
  UnifyPlaceholders : Bool
  RemoveComments : Bool
  UppercaseKeywords : Bool
  RemoveQuotes : Bool
  NormalizeSelectColumns : Bool
  NormalizeJoinSyntax : Bool
  NormalizeOrderByAsc : Bool
  SortInsertColumns : Bool
  SortUpdateColumns : Bool
  RemoveReturningClause : Bool
  NormalizeTableQualifiers : Bool
deriving DecidableEq, Repr

/-- `DefaultOptions`. -/
def DefaultOptions : Options :=
  { UnifyPlaceholders := true
    RemoveComments := true
    UppercaseKeywords := true
    RemoveQuotes := true
    NormalizeSelectColumns := false
    NormalizeJoinSyntax := false
    NormalizeOrderByAsc := false
    SortInsertColumns := false
    SortUpdateColumns := false
    RemoveReturningClause := false
    NormalizeTableQualifiers := false }

/-- `Normalize`, parametrized (through
`removeQuotesPreservingCaseOrd`) by the iteration order of the placeholder
map used in the case-preserving quote pass. -/
def NormalizeOrd (reorder : List (Nat × List Char) → List (Nat × List Char))
    (opts : Options) (query : List Char) : List Char :=
  let r1 := if opts.RemoveComments then removeComments query else query
  let r2 :=
    if opts.RemoveQuotes && opts.UppercaseKeywords then
      removeQuotesPreservingCaseOrd reorder r1
    else if opts.RemoveQuotes then removeQuotes r1
    else r1
  let r3 := if opts.UnifyPlaceholders then unifyPlaceholders r2 else r2
  let r4 := normalizeWhitespace r3
  let r5 :=
    if opts.UppercaseKeywords && !opts.RemoveQuotes then uppercaseKeywords r4 else r4
  let r6 := if opts.NormalizeSelectColumns then normalizeSelectColumns r5 else r5
  let r7 := if opts.NormalizeJoinSyntax then normalizeJoinSyntax r6 else r6
  let r8 := if opts.NormalizeOrderByAsc then normalizeOrderByAsc r7 else r7
  let r9 := if opts.SortInsertColumns then sortInsertColumns r8 else r8
  let r10 := if opts.SortUpdateColumns then sortUpdateColumns r9 else r9
  let r11 := if opts.RemoveReturningClause then removeReturningClause r10 else r10
  let r12 := if opts.NormalizeTableQualifiers then normalizeTableQualifiers r11 else r11
  trimSpace r12

/-- `Normalize` with the insertion-order iteration of the placeholder map. -/
def Normalize (opts : Options) (query : List Char) : List Char :=
  NormalizeOrd id opts query

/-! ### Verification-helper definitions (analysis side, not source code) -/

/-- `true` when the text starts with an RE2 whitespace character. -/
def headSpace : List Char → Bool
  | [] => false
  | c :: _ => isRe2Space c

/-- Invariant of whitespace-collapsed text: every RE2 whitespace character is
a single space with a non-whitespace successor (or none). -/
def okWs : List Char → Bool
  | [] => true
  | [c] => !isRe2Space c || c = ' '
  | c :: d :: r => (!isRe2Space c || (c = ' ' && !isRe2Space d)) && okWs (d :: r)

/-- Number of adjacent pairs satisfying `p` (used to count regex-marker
positions). -/
def pairCountP (p : Char → Char → Bool) : List Char → Nat
  | c1 :: c2 :: r => (if p c1 c2 then 1 else 0) + pairCountP p (c2 :: r)
  | _ => 0

/-- Contribution of the pair starting at `c` when followed by the head of the
remaining text. -/
def pairHead (q : Char → Char → Bool) (c : Char) : List Char → Nat
  | [] => 0
  | d :: _ => if q c d then 1 else 0

/-- A dollar marker head: `$` immediately followed by a digit.  Leftmost
greedy matches of the regex dollar-digits are in bijection with such
positions. -/
def dollarPair (a b : Char) : Bool :=
  a = '$' && isDigitChar b

/-- A named-marker head: `:` immediately followed by a word character. -/
def colonPair (a b : Char) : Bool :=
  a = ':' && isWordChar b

/-- An at-marker head: `@` immediately followed by a word character. -/
def atPair (a b : Char) : Bool :=
  a = '@' && isWordChar b

/-- The number of placeholder tokens of a query in the sense of
`unifyPlaceholders`: pre-existing bare `?` tokens plus one token per marker
head position of each of the three marker regexes. -/
def placeholderTokenCount (l : List Char) : Nat :=
  l.count '?' + pairCountP dollarPair l + pairCountP colonPair l +
    pairCountP atPair l

/-- Counting twin of `markerGo`: the number of markers it replaces. -/
def markerCount (h : Char) (p : Char → Bool) : MState → List Char → Nat
  | .norm, [] => 0
  | .norm, c :: r =>
    if c = h then markerCount h p .afterH r else markerCount h p .norm r
  | .afterH, [] => 0
  | .afterH, c :: r =>
    if c = h then markerCount h p .afterH r
    else if p c then 1 + markerCount h p .inRun r
    else markerCount h p .norm r
  | .inRun, [] => 0
  | .inRun, c :: r =>
    if p c then markerCount h p .inRun r
    else if c = h then markerCount h p .afterH r
    else markerCount h p .norm r

/-- `OperationType` from `query.go`. -/
inductive OperationType where
  | select
  | insert
  | update
  | delete
  | other
deriving DecidableEq, Repr

/-- `detectOperation` from `query.go`: classify by the first six bytes,
ASCII-uppercased.  (`len(query)` counts bytes in Go; the inputs relevant to
the claims are ASCII, where bytes and characters coincide.) -/
def detectOperation (q : List Char) : OperationType :=
  if q.length < 6 then .other
  else
    let p := (q.take 6).map asciiUpperChar
    if p = "SELECT".data then .select
    else if p = "INSERT".data then .insert
    else if p = "UPDATE".data then .update
    else if p = "DELETE".data then .delete
    else .other

end Migratiorm

/-! ## Helper lemmas for the comparator claims -/

namespace Comparator

/-- The difference emitted at index `i` carries index `i`. -/
theorem strictDiffAt_index (expected actual : List String) (i : Nat) :
    (strictDiffAt expected actual i).index = i := by
  unfold strictDiffAt
  split_ifs <;> rfl

/-- Element `i` of a mapped range. -/
theorem getD_map_range {α : Type} (n : Nat) (f : Nat → α) (i : Nat) (d : α)
    (h : i < n) : (((List.range n).map f).getD i d) = f i := by
  rw [List.getD_eq_getElem?_getD, List.getElem?_map, List.getElem?_range h]
  rfl

/-- Length of the first component of `goExpLoop`. -/
theorem goExpLoop_fst_length :
    ∀ (l : List String) (am : String → Nat) (idx : Nat),
      (goExpLoop l am idx).1.length = l.length := by
  intro l
  induction l with
  | nil => intro am idx; rfl
  | cons q rest ih =>
    intro am idx
    by_cases h : am q = 0 <;> simp [goExpLoop, h, ih]

/-- Indices of the first loop are consecutive from the start index. -/
theorem goExpLoop_fst_map_index :
    ∀ (l : List String) (am : String → Nat) (idx : Nat),
      (goExpLoop l am idx).1.map Difference.index = List.range' idx l.length := by
  intro l
  induction l with
  | nil => intro am idx; rfl
  | cons q rest ih =>
    intro am idx
    by_cases h : am q = 0 <;>
      simp [goExpLoop, h, ih, List.range'_succ]

/-- Indices of the second loop are consecutive from the start index. -/
theorem goActLoop_fst_map_index :
    ∀ (l : List String) (em : String → Nat) (idx : Nat),
      (goActLoop l em idx).1.map Difference.index =
        List.range' idx (goActLoop l em idx).1.length := by
  intro l
  induction l with
  | nil => intro em idx; rfl
  | cons q rest ih =>
    intro em idx
    by_cases h : em q = 0 <;>
      simp [goActLoop, h, ih, List.range'_succ]

/-- The first loop reports all-match exactly when every expected occurrence
finds an available actual occurrence (multiset inclusion). -/
theorem goExpLoop_snd_iff :
    ∀ (l : List String) (am : String → Nat) (idx : Nat),
      (goExpLoop l am idx).2 = true ↔ ∀ s, l.count s ≤ am s := by
  intro l
  induction l with
  | nil => intro am idx; simp [goExpLoop]
  | cons q rest ih =>
    intro am idx
    by_cases h : am q = 0
    · simp only [goExpLoop, if_pos h]
      simp only [Bool.false_eq_true, false_iff]
      intro hall
      have := hall q
      rw [List.count_cons_self] at this
      omega
    · simp only [goExpLoop, if_neg h]
      rw [ih]
      constructor
      · intro hall s
        have h1 := hall s
        by_cases hs : s = q
        · subst hs
          rw [if_pos rfl] at h1
          rw [List.count_cons_self]
          omega
        · rw [List.count_cons_of_ne hs]
          simpa [hs] using h1
      · intro hall s
        by_cases hs : s = q
        · subst hs
          have h1 := hall s
          rw [List.count_cons_self] at h1
          rw [if_pos rfl]
          omega
        · have h1 := hall s
          rw [List.count_cons_of_ne hs] at h1
          simpa [hs] using h1

/-- The second loop reports no-extra exactly when every actual occurrence
finds an available expected occurrence (multiset inclusion). -/
theorem goActLoop_snd_iff :
    ∀ (l : List String) (em : String → Nat) (idx : Nat),
      (goActLoop l em idx).2 = true ↔ ∀ s, l.count s ≤ em s := by
  intro l
  induction l with
  | nil => intro em idx; simp [goActLoop]
  | cons q rest ih =>
    intro em idx
    by_cases h : em q = 0
    · simp only [goActLoop, if_pos h]
      simp only [Bool.false_eq_true, false_iff]
      intro hall
      have := hall q
      rw [List.count_cons_self] at this
      omega
    · simp only [goActLoop, if_neg h]
      rw [ih]
      constructor
      · intro hall s
        have h1 := hall s
        by_cases hs : s = q
        · subst hs
          rw [if_pos rfl] at h1
          rw [List.count_cons_self]
          omega
        · rw [List.count_cons_of_ne hs]
          simpa [hs] using h1
      · intro hall s
        by_cases hs : s = q
        · subst hs
          have h1 := hall s
          rw [List.count_cons_self] at h1
          rw [if_pos rfl]
          omega
        · have h1 := hall s
          rw [List.count_cons_of_ne hs] at h1
          simpa [hs] using h1

end Comparator

/-! ## Claim theorems -/

/-- C2: In STRICT mode, `Compare` walks both sequences by index from 0 up to
`max (len expected) (len actual)` and classifies each index as MATCH when both
texts are present and equal, MODIFIED when both are present and differ,
MISSING when the index exists only in `expected`, and EXTRA when the index
exists only in `actual`; an index beyond one sequence's length is always
MISSING or EXTRA and never MODIFIED. -/
theorem C2_compareStrict_classification :
    ∀ (expected actual : List String) (i : Nat),
      i < max expected.length actual.length →
      (Comparator.compareStrict expected actual).differences.length =
          max expected.length actual.length ∧
      ((Comparator.compareStrict expected actual).differences.getD i
            ⟨.diffMatch, 0, "", ""⟩ =
          Comparator.strictDiffAt expected actual i) ∧
      (i < expected.length → i < actual.length →
        expected.getD i "" = actual.getD i "" →
        (Comparator.strictDiffAt expected actual i).dtype = .diffMatch) ∧
      (i < expected.length → i < actual.length →
        expected.getD i "" ≠ actual.getD i "" →
        (Comparator.strictDiffAt expected actual i).dtype = .diffModified) ∧
      (i < expected.length → actual.length ≤ i →
        (Comparator.strictDiffAt expected actual i).dtype = .diffMissing) ∧
      (expected.length ≤ i →
        (Comparator.strictDiffAt expected actual i).dtype = .diffExtra) ∧
      (expected.length ≤ i ∨ actual.length ≤ i →
        (Comparator.strictDiffAt expected actual i).dtype = .diffMissing ∨
        (Comparator.strictDiffAt expected actual i).dtype = .diffExtra) := by
  intro expected actual i hi
  rw [Nat.max_comm expected.length actual.length] at hi
  refine ⟨?_, ?_, ?_, ?_, ?_, ?_, ?_⟩
  · simp [Comparator.compareStrict, Nat.max_comm]
  · simpa [Comparator.compareStrict] using
      Comparator.getD_map_range _ (Comparator.strictDiffAt expected actual) i _ hi
  · intro h1 h2 h3
    unfold Comparator.strictDiffAt
    rw [if_neg (by omega), if_neg (by omega), if_neg (by simpa using h3)]
  · intro h1 h2 h3
    unfold Comparator.strictDiffAt
    rw [if_neg (by omega), if_neg (by omega), if_pos h3]
  · intro h1 h2
    unfold Comparator.strictDiffAt
    rw [if_neg (by omega), if_pos h2]
  · intro h1
    unfold Comparator.strictDiffAt
    rw [if_pos h1]
  · intro h1
    rcases h1 with h1 | h1
    · right
      unfold Comparator.strictDiffAt
      rw [if_pos h1]
    · by_cases h2 : expected.length ≤ i
      · right
        unfold Comparator.strictDiffAt
        rw [if_pos h2]
      · left
        unfold Comparator.strictDiffAt
        rw [if_neg h2, if_pos h1]

/-- Witness for C2 at the concrete input `expected = [x], actual = []`,
index 0. -/
theorem C2_compareStrict_classification_witness :
    (Comparator.compareStrict ["x"] []).differences.length = 1 ∧
    (Comparator.strictDiffAt ["x"] [] 0).dtype = .diffMissing := by
  have h := C2_compareStrict_classification ["x"] [] 0 (by decide)
  exact ⟨h.1, h.2.2.2.2.1 (by decide) (by decide)⟩

/-- C10: In both comparison modes the `Index` fields of the returned
differences are exactly `0, 1, 2, …` in list order; consequently, in UNORDERED
mode an EXTRA record's index continues counting after the `len expected`
expected-derived records, as the concrete instance shows: for
`expected = [a, b]`, `actual = [c]` the extra record for `c` carries index 2,
not `c`'s position 0 in the actual sequence. -/
theorem C10_difference_indices :
    (∀ (mode : Comparator.CompareMode) (expected actual : List String),
      (Comparator.Compare mode expected actual).differences.map
          Comparator.Difference.index =
        List.range (Comparator.Compare mode expected actual).differences.length) ∧
    ((Comparator.compareUnordered ["a", "b"] ["c"]).differences.map
        (fun d => (d.dtype, d.index)) =
      [(.diffMissing, 0), (.diffMissing, 1), (.diffExtra, 2)]) := by
  constructor
  · intro mode expected actual
    cases mode with
    | strict =>
      show (Comparator.compareStrict expected actual).differences.map _ =
        List.range (Comparator.compareStrict expected actual).differences.length
      simp only [Comparator.compareStrict, List.map_map, List.length_map,
        List.length_range]
      have hc : ∀ i ∈ List.range (max actual.length expected.length),
          (Comparator.Difference.index ∘ Comparator.strictDiffAt expected actual) i =
            i :=
        fun i _ => Comparator.strictDiffAt_index expected actual i
      rw [List.map_congr_left hc, List.map_id']
    | unordered =>
      show (Comparator.compareUnordered expected actual).differences.map _ =
        List.range (Comparator.compareUnordered expected actual).differences.length
      simp only [Comparator.compareUnordered, List.map_append, List.length_append]
      rw [Comparator.goExpLoop_fst_map_index, Comparator.goActLoop_fst_map_index,
        Comparator.goExpLoop_fst_length, List.range_eq_range']
      have h := List.range'_append 0 expected.length
        (Comparator.goActLoop actual (fun s => expected.count s) expected.length).1.length 1
      rw [Nat.add_comm]
      simpa using h
  · decide

/-- C3: In UNORDERED mode the two sequences are compared as multisets with
duplicates counted one-to-one: `Equal` is `true` exactly when the sequences
coincide as multisets.  For `expected = [a, b]`, `actual = [b, a]` (with
`a ≠ b`), UNORDERED yields two MATCH records and `Equal = true` while STRICT
yields two MODIFIED records and `Equal = false`. -/
theorem C3_compareUnordered_multiset :
    (∀ expected actual : List String,
      (Comparator.compareUnordered expected actual).equal = true ↔
        (expected : Multiset String) = (actual : Multiset String)) ∧
    (Comparator.compareUnordered ["a", "b"] ["b", "a"]).equal = true ∧
    ((Comparator.compareUnordered ["a", "b"] ["b", "a"]).differences.map
        Comparator.Difference.dtype = [.diffMatch, .diffMatch]) ∧
    (Comparator.compareStrict ["a", "b"] ["b", "a"]).equal = false ∧
    ((Comparator.compareStrict ["a", "b"] ["b", "a"]).differences.map
        Comparator.Difference.dtype = [.diffModified, .diffModified]) := by
  refine ⟨?_, by decide, by decide, by decide, by decide⟩
  intro expected actual
  show ((Comparator.goExpLoop expected (fun s => actual.count s) 0).2 &&
      (Comparator.goActLoop actual (fun s => expected.count s) expected.length).2) =
        true ↔ _
  rw [Bool.and_eq_true, Comparator.goExpLoop_snd_iff, Comparator.goActLoop_snd_iff,
    Multiset.coe_eq_coe, List.perm_iff_count]
  constructor
  · intro h s
    exact Nat.le_antisymm (h.1 s) (h.2 s)
  · intro h
    exact ⟨fun s => (h s).le, fun s => (h s).ge⟩

/-- C8: operation detection reads only the case-folded first six characters:
queries shorter than six characters are OTHER; two queries of length at least
six with the same first six characters classify identically; the four verbs
map to their operation kinds and anything else (including leading whitespace
or a comment before the verb) is OTHER. -/
theorem C8_detectOperation_first_six :
    (∀ q : List Char, q.length < 6 → Migratiorm.detectOperation q = .other) ∧
    (∀ q1 q2 : List Char, 6 ≤ q1.length → 6 ≤ q2.length → q1.take 6 = q2.take 6 →
      Migratiorm.detectOperation q1 = Migratiorm.detectOperation q2) ∧
    (∀ q : List Char, 6 ≤ q.length →
      ((q.take 6).map Migratiorm.asciiUpperChar = "SELECT".data →
        Migratiorm.detectOperation q = .select) ∧
      ((q.take 6).map Migratiorm.asciiUpperChar = "INSERT".data →
        Migratiorm.detectOperation q = .insert) ∧
      ((q.take 6).map Migratiorm.asciiUpperChar = "UPDATE".data →
        Migratiorm.detectOperation q = .update) ∧
      ((q.take 6).map Migratiorm.asciiUpperChar = "DELETE".data →
        Migratiorm.detectOperation q = .delete) ∧
      ((q.take 6).map Migratiorm.asciiUpperChar ≠ "SELECT".data →
        (q.take 6).map Migratiorm.asciiUpperChar ≠ "INSERT".data →
        (q.take 6).map Migratiorm.asciiUpperChar ≠ "UPDATE".data →
        (q.take 6).map Migratiorm.asciiUpperChar ≠ "DELETE".data →
        Migratiorm.detectOperation q = .other)) ∧
    Migratiorm.detectOperation " SELECT * FROM t".data = .other ∧
    Migratiorm.detectOperation "-- c\nSELECT 1 FROM t".data = .other ∧
    Migratiorm.detectOperation "/* hi */ SELECT 1".data = .other ∧
    Migratiorm.detectOperation "select * from t".data = .select ∧
    Migratiorm.detectOperation "inSerT into t vals".data = .insert ∧
    Migratiorm.detectOperation "UPDATE t set a".data = .update ∧
    Migratiorm.detectOperation "delete from t".data = .delete ∧
    Migratiorm.detectOperation "DROP TABLE t".data = .other := by
  refine ⟨?_, ?_, ?_, by decide, by decide, by decide, by decide, by decide,
    by decide, by decide, by decide⟩
  · intro q h
    simp [Migratiorm.detectOperation, h]
  · intro q1 q2 h1 h2 he
    unfold Migratiorm.detectOperation
    rw [if_neg (show ¬q1.length < 6 by omega), if_neg (show ¬q2.length < 6 by omega),
      he]
  · intro q h
    refine ⟨?_, ?_, ?_, ?_, ?_⟩ <;> intro h1 <;>
      [skip; skip; skip; skip; (intro h2 h3 h4)] <;>
      unfold Migratiorm.detectOperation <;>
      rw [if_neg (by omega)] <;>
      simp only [h1] <;> simp_all

/-- Witness for C8 at concrete inputs: a short query and a SELECT query. -/
theorem C8_detectOperation_first_six_witness :
    Migratiorm.detectOperation "ab".data = .other ∧
    Migratiorm.detectOperation "SELECT x".data = .select := by
  have h := C8_detectOperation_first_six
  exact ⟨h.1 "ab".data (by decide),
    ((h.2.2.1 "SELECT x".data (by decide)).1 (by decide))⟩

/-- C5 counterexample: the claim says the stage returns its input unchanged
whenever the query contains a comma-joined FROM list, yet on
`select a.id from a x, b y where a.id = b.id` — a comma-joined FROM list in
which both tables carry aliases — the stage strips the `a.` qualifiers: the
comma guard only recognizes a comma directly after the first table word. -/
theorem C5_counterexample :
    Migratiorm.normalizeTableQualifiers
        "select a.id from a x, b y where a.id = b.id".data =
      "select id from a x, b y where id = b.id".data ∧
    Migratiorm.normalizeTableQualifiers
        "select a.id from a x, b y where a.id = b.id".data ≠
      "select a.id from a x, b y where a.id = b.id".data := by
  constructor
  · decide
  · decide

/-- C5 (amended): the stage returns its input unchanged whenever one of its
guards fires — a space-delimited JOIN pattern in the uppercased query, a
`(SELECT ` subquery pattern, a comma directly after the first FROM table word,
or a schema-qualified name after FROM/UPDATE/INSERT INTO — or when no table
name can be extracted; a comma-joined FROM list whose first table carries an
alias escapes the comma guard (see the counterexample).  It never strips an
alias qualifier that differs from the extracted table name (concrete
instances), and in the unambiguous single-table case strips `tablename.`
prefixes, matching the table name case-insensitively. -/
theorem C5_normalizeTableQualifiers_guards :
    (∀ q : List Char, Migratiorm.hasJoin (q.map Migratiorm.asciiUpperChar) = true →
        Migratiorm.normalizeTableQualifiers q = q) ∧
    (∀ q : List Char, Migratiorm.hasSubquery (q.map Migratiorm.asciiUpperChar) = true →
        Migratiorm.normalizeTableQualifiers q = q) ∧
    (∀ q : List Char,
        Migratiorm.hasMultipleTables (q.map Migratiorm.asciiUpperChar) = true →
        Migratiorm.normalizeTableQualifiers q = q) ∧
    (∀ q : List Char, Migratiorm.hasSchemaPrefix q = true →
        Migratiorm.normalizeTableQualifiers q = q) ∧
    (∀ q : List Char, Migratiorm.extractTableName q = [] →
        Migratiorm.normalizeTableQualifiers q = q) ∧
    Migratiorm.normalizeTableQualifiers "SELECT u.age FROM users u WHERE u.age >= ?".data =
      "SELECT u.age FROM users u WHERE u.age >= ?".data ∧
    Migratiorm.normalizeTableQualifiers
        "SELECT * FROM users JOIN orders ON users.id = orders.user_id WHERE users.age >= ?".data =
      "SELECT * FROM users JOIN orders ON users.id = orders.user_id WHERE users.age >= ?".data ∧
    Migratiorm.normalizeTableQualifiers
        "SELECT * FROM users, orders WHERE users.id = orders.user_id".data =
      "SELECT * FROM users, orders WHERE users.id = orders.user_id".data ∧
    Migratiorm.normalizeTableQualifiers "SELECT * FROM users WHERE users.age >= ?".data =
      "SELECT * FROM users WHERE age >= ?".data ∧
    Migratiorm.normalizeTableQualifiers "SELECT * FROM Users WHERE USERS.age >= ?".data =
      "SELECT * FROM Users WHERE age >= ?".data := by
  refine ⟨?_, ?_, ?_, ?_, ?_, by decide, by decide, by decide, by decide, by decide⟩
  all_goals
    intro q h
    unfold Migratiorm.normalizeTableQualifiers
    split_ifs <;> first | rfl | simp_all

/-- Witness for C5 (amended) at concrete inputs triggering each guard. -/
theorem C5_normalizeTableQualifiers_guards_witness :
    Migratiorm.normalizeTableQualifiers
        "SELECT x.a FROM x JOIN y ON x.a = y.b".data =
      "SELECT x.a FROM x JOIN y ON x.a = y.b".data ∧
    Migratiorm.normalizeTableQualifiers
        "SELECT x.a FROM x WHERE x.a IN (SELECT b FROM y)".data =
      "SELECT x.a FROM x WHERE x.a IN (SELECT b FROM y)".data ∧
    Migratiorm.normalizeTableQualifiers
        "SELECT x.a FROM x, y".data = "SELECT x.a FROM x, y".data ∧
    Migratiorm.normalizeTableQualifiers
        "SELECT s.t.a FROM s.t".data = "SELECT s.t.a FROM s.t".data ∧
    Migratiorm.normalizeTableQualifiers "no table here".data = "no table here".data := by
  have h := C5_normalizeTableQualifiers_guards
  exact ⟨h.1 _ (by decide), h.2.1 _ (by decide), h.2.2.1 _ (by decide),
    h.2.2.2.1 _ (by decide), h.2.2.2.2.1 _ (by decide)⟩

/-- C9: the restoration step of `removeQuotesPreservingCase` iterates a Go
`map[string]string` with `range`, whose iteration order is unspecified and
varies between runs.  When a quoted span's inner text itself contains a
placeholder token, the output depends on that order: on
`"a__QUOTED_1__b" "z"` restoring pair 0 first yields `azb __QUOTED_1__`,
while restoring pair 1 first yields `a__QUOTED_1__b z`.  The function is
therefore not a deterministic pure function of its input, contradicting both
the claim and the spec's own design note prescribing an ordered association. -/
theorem C9_restore_order_dependence :
    Migratiorm.removeQuotesPreservingCaseOrd id "\"a__QUOTED_1__b\" \"z\"".data =
      "azb __QUOTED_1__".data ∧
    Migratiorm.removeQuotesPreservingCaseOrd List.reverse
        "\"a__QUOTED_1__b\" \"z\"".data =
      "a__QUOTED_1__b z".data ∧
    Migratiorm.removeQuotesPreservingCaseOrd id "\"a__QUOTED_1__b\" \"z\"".data ≠
      Migratiorm.removeQuotesPreservingCaseOrd List.reverse
        "\"a__QUOTED_1__b\" \"z\"".data := by
  refine ⟨by decide, by decide, by decide⟩

/-! ## Helper lemmas on whitespace collapsing and trimming -/

namespace Migratiorm

/-- Collapsing step on a non-whitespace head. -/
theorem wsGo_cons_nonspace (b : Bool) {c : Char} (z : List Char)
    (h : isRe2Space c = false) : wsGo b (c :: z) = c :: wsGo false z := by
  cases b <;> simp [wsGo, h]

/-- Collapsing step on a whitespace head, outside a run. -/
theorem wsGo_false_cons_space {c : Char} (z : List Char)
    (h : isRe2Space c = true) : wsGo false (c :: z) = ' ' :: wsGo true z := by
  simp [wsGo, h]

/-- Collapsing step on a whitespace head, inside a run. -/
theorem wsGo_true_cons_space {c : Char} (z : List Char)
    (h : isRe2Space c = true) : wsGo true (c :: z) = wsGo true z := by
  simp [wsGo, h]

/-- The in-run scanner never emits a leading whitespace character. -/
theorem headSpace_wsGo_true : ∀ r : List Char, headSpace (wsGo true r) = false := by
  intro r
  induction r with
  | nil => rfl
  | cons c z ih =>
    by_cases h : isRe2Space c = true
    · rw [wsGo_true_cons_space z h]
      exact ih
    · simp only [Bool.not_eq_true] at h
      rw [wsGo_cons_nonspace true z h]
      simpa [headSpace] using h

/-- Prepending a non-whitespace character preserves the invariant. -/
theorem okWs_cons_nonspace {c : Char} {z : List Char} (hc : isRe2Space c = false)
    (hz : okWs z = true) : okWs (c :: z) = true := by
  cases z with
  | nil => simp [okWs, hc]
  | cons d w => simp [okWs, hc, hz]

/-- Prepending a single space before non-whitespace text preserves the
invariant. -/
theorem okWs_cons_space {z : List Char} (hz : okWs z = true)
    (hh : headSpace z = false) : okWs (' ' :: z) = true := by
  cases z with
  | nil => decide
  | cons d w =>
    simp only [headSpace] at hh
    simp [okWs, hh, hz]

/-- Whitespace collapsing establishes the invariant. -/
theorem okWs_wsGo : ∀ (q : List Char) (b : Bool), okWs (wsGo b q) = true := by
  intro q
  induction q with
  | nil => intro b; cases b <;> rfl
  | cons c z ih =>
    intro b
    by_cases h : isRe2Space c = true
    · cases b
      · rw [wsGo_false_cons_space z h]
        exact okWs_cons_space (ih true) (headSpace_wsGo_true z)
      · rw [wsGo_true_cons_space z h]
        exact ih true
    · simp only [Bool.not_eq_true] at h
      rw [wsGo_cons_nonspace b z h]
      exact okWs_cons_nonspace h (ih false)

/-- The invariant is preserved by dropping the head. -/
theorem okWs_tail {c : Char} {z : List Char} (h : okWs (c :: z) = true) :
    okWs z = true := by
  cases z with
  | nil => rfl
  | cons d w =>
    simp only [okWs, Bool.and_eq_true] at h
    exact h.2

/-- The invariant is preserved by dropping a suffix. -/
theorem okWs_append_left : ∀ (y b : List Char), okWs (y ++ b) = true → okWs y = true := by
  intro y
  induction y with
  | nil => intro b _; rfl
  | cons c z ih =>
    intro b h
    cases z with
    | nil =>
      cases b with
      | nil => simpa using h
      | cons e w =>
        simp only [List.cons_append, List.nil_append, okWs, Bool.and_eq_true,
          Bool.or_eq_true, Bool.not_eq_true', Bool.and_eq_true,
          decide_eq_true_eq] at h
        rcases h.1 with h2 | h2
        · simp [okWs, h2]
        · simp [okWs, h2.1]
    | cons d w =>
      simp only [List.cons_append, okWs, Bool.and_eq_true] at h ⊢
      exact ⟨h.1, ih b h.2⟩

/-- The invariant is preserved by taking a contiguous slice. -/
theorem okWs_infix {y x : List Char} (hinf : y <:+: x) (hx : okWs x = true) :
    okWs y = true := by
  rcases hinf with ⟨s, t, rfl⟩
  induction s with
  | nil => exact okWs_append_left y t (by simpa using hx)
  | cons c s ih =>
    apply ih
    exact okWs_tail hx

/-- Collapsing is the identity on invariant-satisfying text. -/
theorem wsGo_false_eq_of_okWs : ∀ x : List Char, okWs x = true → wsGo false x = x := by
  intro x
  induction x with
  | nil => intro _; rfl
  | cons c z ih =>
    intro h
    by_cases hc : isRe2Space c = true
    · have hpair : c = ' ' ∧ headSpace z = false := by
        cases z with
        | nil =>
          refine ⟨?_, rfl⟩
          simpa [okWs, hc] using h
        | cons d w =>
          simp only [okWs, Bool.and_eq_true, Bool.or_eq_true, Bool.not_eq_true',
            decide_eq_true_eq] at h
          rcases h.1 with h2 | h2
          · rw [hc] at h2; cases h2
          · exact ⟨h2.1, by simpa [headSpace] using h2.2⟩
      rcases hpair with ⟨hcsp, hhz⟩
      subst hcsp
      cases z with
      | nil => decide
      | cons d w =>
        have hd : isRe2Space d = false := by simpa [headSpace] using hhz
        have hz := ih (okWs_tail h)
        rw [wsGo_cons_nonspace false w hd] at hz
        rw [wsGo_false_cons_space (d :: w) hc, wsGo_cons_nonspace true w hd]
        have hw : wsGo false w = w := by
          simpa using congrArg List.tail hz
        rw [hw]
    · simp only [Bool.not_eq_true] at hc
      rw [wsGo_cons_nonspace false z hc, ih (okWs_tail h)]

/-- The trimmed text is a contiguous slice of the original. -/
theorem trimSpace_infix (x : List Char) : trimSpace x <:+: x := by
  unfold trimSpace
  have h1 : (x.dropWhile isGoSpace) <:+ x := List.dropWhile_suffix _
  have h2 : ((x.dropWhile isGoSpace).reverse.dropWhile isGoSpace) <:+
      (x.dropWhile isGoSpace).reverse := List.dropWhile_suffix _
  have h3 : ((x.dropWhile isGoSpace).reverse.dropWhile isGoSpace).reverse <+:
      (x.dropWhile isGoSpace) := by
    rw [← List.reverse_suffix]
    simpa using h2
  exact (h3.isInfix).trans h1.isInfix

/-- Dropping from a list whose head does not satisfy the predicate is the
identity. -/
theorem dropWhile_eq_self_of_head (p : Char → Bool) (l : List Char)
    (h : ∀ a, l.head? = some a → p a = false) : l.dropWhile p = l := by
  cases l with
  | nil => rfl
  | cons c z =>
    have := h c rfl
    simp [List.dropWhile_cons, this]

/-- The head of the trimmed text is not Go whitespace. -/
theorem trimSpace_head (x : List Char) (a : Char)
    (h : (trimSpace x).head? = some a) : isGoSpace a = false := by
  unfold trimSpace at h
  rw [List.head?_reverse] at h
  have hsuf : ((x.dropWhile isGoSpace).reverse.dropWhile isGoSpace) <:+
      (x.dropWhile isGoSpace).reverse := List.dropWhile_suffix _
  rcases hsuf with ⟨w2, hw2⟩
  have hne : (x.dropWhile isGoSpace).reverse.dropWhile isGoSpace ≠ [] := by
    intro h0
    rw [h0] at h
    cases h
  have hlast : (x.dropWhile isGoSpace).reverse.getLast? = some a := by
    rw [← hw2, List.getLast?_append_of_ne_nil w2 hne]
    exact h
  rw [List.getLast?_reverse] at hlast
  have := List.head?_dropWhile_not isGoSpace x
  rw [hlast] at this
  simpa using this

/-- Go `TrimSpace` is idempotent. -/
theorem trimSpace_idem (x : List Char) : trimSpace (trimSpace x) = trimSpace x := by
  have h1 : (trimSpace x).dropWhile isGoSpace = trimSpace x :=
    dropWhile_eq_self_of_head _ _ (trimSpace_head x)
  show (((trimSpace x).dropWhile isGoSpace).reverse.dropWhile isGoSpace).reverse =
    trimSpace x
  rw [h1]
  show ((((x.dropWhile isGoSpace).reverse.dropWhile isGoSpace).reverse).reverse.dropWhile
      isGoSpace).reverse = _
  rw [List.reverse_reverse, List.dropWhile_idempotent]
  rfl

end Migratiorm

/-- C4 counterexample: with the default configuration, normalizing
`"select"` (a quoted identifier spelled like a keyword) yields `select` —
the case-preserving quote pass protects it — but normalizing a second time
finds no quotes and case-folds it to `SELECT`, so `Normalize` is not
idempotent for every configuration. -/
theorem C4_counterexample :
    Migratiorm.Normalize Migratiorm.DefaultOptions "\"select\"".data =
      "select".data ∧
    Migratiorm.Normalize Migratiorm.DefaultOptions
        (Migratiorm.Normalize Migratiorm.DefaultOptions "\"select\"".data) =
      "SELECT".data ∧
    Migratiorm.Normalize Migratiorm.DefaultOptions
        (Migratiorm.Normalize Migratiorm.DefaultOptions "\"select\"".data) ≠
      Migratiorm.Normalize Migratiorm.DefaultOptions "\"select\"".data := by
  refine ⟨by decide, by decide, by decide⟩

/-- C4 (amended): `Normalize` is not idempotent for every configuration (see
the counterexample: with quote removal and keyword folding both enabled, a
quoted identifier spelled like a keyword is protected on the first pass but
case-folded on the second; with comment removal, quote stripping can expose a
new `--` comment).  For the configuration with every stage disabled, where
`Normalize` is exactly whitespace collapsing followed by trimming, idempotence
holds for every input. -/
theorem C4_amended_idempotent_all_off :
    ∀ q : List Char,
      Migratiorm.Normalize ⟨false, false, false, false, false, false, false,
          false, false, false, false⟩
        (Migratiorm.Normalize ⟨false, false, false, false, false, false, false,
          false, false, false, false⟩ q) =
      Migratiorm.Normalize ⟨false, false, false, false, false, false, false,
          false, false, false, false⟩ q := by
  intro q
  show Migratiorm.trimSpace
      (Migratiorm.wsGo false (Migratiorm.trimSpace (Migratiorm.wsGo false q))) =
    Migratiorm.trimSpace (Migratiorm.wsGo false q)
  have hok : Migratiorm.okWs (Migratiorm.wsGo false q) = true :=
    Migratiorm.okWs_wsGo q false
  have hok2 : Migratiorm.okWs
      (Migratiorm.trimSpace (Migratiorm.wsGo false q)) = true :=
    Migratiorm.okWs_infix (Migratiorm.trimSpace_infix (Migratiorm.wsGo false q)) hok
  rw [Migratiorm.wsGo_false_eq_of_okWs _ hok2, Migratiorm.trimSpace_idem]

/-! ## Helper lemmas for placeholder unification (C7) -/

namespace Migratiorm

/-- Pair count decomposes at a cons cell. -/
theorem pairCountP_cons (q : Char → Char → Bool) (c : Char) (l : List Char) :
    pairCountP q (c :: l) = pairHead q c l + pairCountP q l := by
  cases l <;> rfl

/-- A head contributing to no pair can be dropped from the pair count. -/
theorem pairCountP_cons_of_none (q : Char → Char → Bool) (c : Char)
    (l : List Char) (h : ∀ b, q c b = false) :
    pairCountP q (c :: l) = pairCountP q l := by
  rw [pairCountP_cons]
  cases l with
  | nil => rfl
  | cons d w => simp [pairHead, h d]

/-- The question marks produced by one marker scanner: original count plus
replaced markers. -/
theorem markerGo_count (h : Char) (p : Char → Bool) (hhq : h ≠ '?')
    (hpq : p '?' = false) :
    ∀ (l : List Char) (s : MState),
      (markerGo h p s l).count '?' = l.count '?' + markerCount h p s l := by
  have hqh : '?' ≠ h := Ne.symm hhq
  intro l
  induction l with
  | nil =>
    intro s
    cases s <;>
      simp [markerGo, markerCount, List.count_nil, List.count_cons_of_ne hqh]
  | cons c z ih =>
    intro s
    cases s with
    | norm =>
      by_cases hc : c = h
      · subst hc
        simp only [markerGo, markerCount, eq_self_iff_true, if_true]
        rw [ih .afterH, List.count_cons_of_ne hqh]
      · simp only [markerGo, markerCount, if_neg hc]
        rw [List.count_cons, List.count_cons, ih .norm]
        omega
    | afterH =>
      by_cases hc : c = h
      · subst hc
        simp only [markerGo, markerCount, eq_self_iff_true, if_true]
        rw [List.count_cons_of_ne hqh, List.count_cons_of_ne hqh, ih .afterH]
      · by_cases hpc : p c = true
        · have hcq : '?' ≠ c := by
            intro hq
            rw [← hq] at hpc
            rw [hpq] at hpc
            cases hpc
          simp only [markerGo, markerCount, if_neg hc, if_pos hpc]
          rw [List.count_cons_self, List.count_cons_of_ne hcq, ih .inRun]
          omega
        · simp only [markerGo, markerCount, if_neg hc, if_neg hpc]
          rw [List.count_cons_of_ne hqh, List.count_cons, List.count_cons, ih .norm]
          omega
    | inRun =>
      by_cases hpc : p c = true
      · have hcq : '?' ≠ c := by
          intro hq
          rw [← hq] at hpc
          rw [hpq] at hpc
          cases hpc
        simp only [markerGo, markerCount, if_pos hpc]
        rw [List.count_cons_of_ne hcq, ih .inRun]
      · by_cases hc : c = h
        · subst hc
          simp only [markerGo, markerCount, if_neg hpc, eq_self_iff_true, if_true]
          rw [List.count_cons_of_ne hqh, ih .afterH]
        · simp only [markerGo, markerCount, if_neg hpc, if_neg hc]
          rw [List.count_cons, List.count_cons, ih .norm]
          omega

/-- Marker counts agree with the pair-position count: each marker match is
identified by its head character followed by one admissible character. -/
theorem markerCount_eq_pairCountP (h : Char) (p : Char → Bool) (hph : p h = false) :
    ∀ l : List Char,
      markerCount h p .norm l = pairCountP (fun a b => a = h && p b) l ∧
      markerCount h p .afterH l = pairCountP (fun a b => a = h && p b) (h :: l) ∧
      markerCount h p .inRun l = pairCountP (fun a b => a = h && p b) l := by
  intro l
  induction l with
  | nil => exact ⟨rfl, rfl, rfl⟩
  | cons c z ih =>
    have hnone : c ≠ h → ∀ b, (fun a b => a = h && p b) c b = false := by
      intro hc b
      simp [hc]
    have hchp : p c = true → c ≠ h := by
      intro hpc hc
      rw [hc, hph] at hpc
      cases hpc
    refine ⟨?_, ?_, ?_⟩
    · by_cases hc : c = h
      · subst hc
        simp only [markerCount, eq_self_iff_true, if_true]
        exact ih.2.1
      · simp only [markerCount, if_neg hc]
        rw [ih.1, pairCountP_cons_of_none _ _ _ (hnone hc)]
    · by_cases hc : c = h
      · subst hc
        simp only [markerCount, eq_self_iff_true, if_true]
        rw [ih.2.1]
        conv_rhs => rw [pairCountP_cons]
        simp [pairHead, hph]
      · by_cases hpc : p c = true
        · simp only [markerCount, if_neg hc, if_pos hpc]
          rw [ih.2.2]
          conv_rhs => rw [pairCountP_cons, pairCountP_cons_of_none _ _ _ (hnone hc)]
          simp [pairHead, hpc]
        · simp only [markerCount, if_neg hc, if_neg hpc]
          rw [ih.1]
          conv_rhs => rw [pairCountP_cons, pairCountP_cons_of_none _ _ _ (hnone hc)]
          simp [pairHead, hpc]
    · by_cases hpc : p c = true
      · simp only [markerCount, if_pos hpc]
        rw [ih.2.2, pairCountP_cons_of_none _ _ _ (hnone (hchp hpc))]
      · by_cases hc : c = h
        · subst hc
          simp only [markerCount, if_neg hpc, eq_self_iff_true, if_true]
          exact ih.2.1
        · simp only [markerCount, if_neg hpc, if_neg hc]
          rw [ih.1, pairCountP_cons_of_none _ _ _ (hnone hc)]

/-- A pair head different from the marker head contributes nothing. -/
theorem pairHead_eq_zero_of_ne (h2 : Char) (p2 : Char → Bool) (c : Char)
    (l : List Char) (hc : c ≠ h2) :
    pairHead (fun a b => a = h2 && p2 b) c l = 0 := by
  cases l <;> simp [pairHead, hc]

/-- The normal-state scanner preserves the head pair contribution of the other
marker classes: its output is empty, starts with the original head, or starts
with the marker head or `?`, none of which satisfies the other class. -/
theorem pairHead_markerGo_norm (h : Char) (p : Char → Bool) (h2 : Char)
    (p2 : Char → Bool) (hp2h : p2 h = false) (hp2q : p2 '?' = false)
    (c : Char) (r : List Char) :
    pairHead (fun a b => a = h2 && p2 b) c (markerGo h p .norm r) =
      pairHead (fun a b => a = h2 && p2 b) c r := by
  cases r with
  | nil => rfl
  | cons d z =>
    by_cases hd : d = h
    · rw [show markerGo h p .norm (d :: z) = markerGo h p .afterH z by
        simp [markerGo, hd]]
      have hrhs : pairHead (fun a b => a = h2 && p2 b) c (d :: z) = 0 := by
        simp [pairHead, hd, hp2h]
      rw [hrhs]
      cases z with
      | nil => simp [markerGo, pairHead, hp2h]
      | cons e z2 =>
        by_cases he : e = h
        · rw [show markerGo h p .afterH (e :: z2) = h :: markerGo h p .afterH z2 by
            simp [markerGo, he]]
          simp [pairHead, hp2h]
        · by_cases hpe : p e = true
          · rw [show markerGo h p .afterH (e :: z2) = '?' :: markerGo h p .inRun z2 by
              simp [markerGo, he, hpe]]
            simp [pairHead, hp2q]
          · rw [show markerGo h p .afterH (e :: z2) =
                h :: e :: markerGo h p .norm z2 by simp [markerGo, he, hpe]]
            simp [pairHead, hp2h]
    · rw [show markerGo h p .norm (d :: z) = d :: markerGo h p .norm z by
        simp [markerGo, hd]]
      simp [pairHead]

/-- One marker scanner preserves the pair-position count of a different
marker class (distinct head characters; neither head is in the other's run
class; `?` is in neither run class). -/
theorem markerGo_pairCountP_other (h : Char) (p : Char → Bool) (h2 : Char)
    (p2 : Char → Bool) (hph : p h = false) (hne : h2 ≠ h) (hp2h : p2 h = false)
    (hp2q : p2 '?' = false) (hph2 : p h2 = false) (hq2 : h2 ≠ '?') :
    ∀ l : List Char,
      pairCountP (fun a b => a = h2 && p2 b) (markerGo h p .norm l) =
        pairCountP (fun a b => a = h2 && p2 b) l ∧
      pairCountP (fun a b => a = h2 && p2 b) (markerGo h p .afterH l) =
        pairCountP (fun a b => a = h2 && p2 b) (h :: l) ∧
      pairCountP (fun a b => a = h2 && p2 b) (markerGo h p .inRun l) =
        pairCountP (fun a b => a = h2 && p2 b) l := by
  have hhz : ∀ X, pairHead (fun a b => a = h2 && p2 b) h X = 0 :=
    fun X => pairHead_eq_zero_of_ne h2 p2 h X (Ne.symm hne)
  have hqz : ∀ X, pairHead (fun a b => a = h2 && p2 b) '?' X = 0 :=
    fun X => pairHead_eq_zero_of_ne h2 p2 '?' X (Ne.symm hq2)
  have hpz : ∀ c X, p c = true → pairHead (fun a b => a = h2 && p2 b) c X = 0 := by
    intro c X hpc
    refine pairHead_eq_zero_of_ne h2 p2 c X ?_
    intro hch2
    rw [hch2, hph2] at hpc
    cases hpc
  intro l
  induction l with
  | nil => exact ⟨rfl, by simp [markerGo, pairCountP], rfl⟩
  | cons c z ih =>
    refine ⟨?_, ?_, ?_⟩
    · by_cases hc : c = h
      · rw [show markerGo h p .norm (c :: z) = markerGo h p .afterH z by
          simp [markerGo, hc]]
        rw [ih.2.1, hc]
      · rw [show markerGo h p .norm (c :: z) = c :: markerGo h p .norm z by
          simp [markerGo, hc]]
        rw [pairCountP_cons, pairCountP_cons,
          pairHead_markerGo_norm h p h2 p2 hp2h hp2q c z, ih.1]
    · by_cases hc : c = h
      · rw [show markerGo h p .afterH (c :: z) = h :: markerGo h p .afterH z by
          simp [markerGo, hc]]
        rw [pairCountP_cons, hhz, ih.2.1]
        conv_rhs => rw [pairCountP_cons, hhz]
        rw [hc]
      · by_cases hpc : p c = true
        · rw [show markerGo h p .afterH (c :: z) = '?' :: markerGo h p .inRun z by
            simp [markerGo, hc, hpc]]
          rw [pairCountP_cons, hqz, ih.2.2]
          conv_rhs => rw [pairCountP_cons, hhz, pairCountP_cons, hpz c z hpc]
          omega
        · rw [show markerGo h p .afterH (c :: z) =
              h :: c :: markerGo h p .norm z by simp [markerGo, hc, hpc]]
          rw [pairCountP_cons, hhz, pairCountP_cons,
            pairHead_markerGo_norm h p h2 p2 hp2h hp2q c z, ih.1]
          conv_rhs => rw [pairCountP_cons, hhz, pairCountP_cons]
    · by_cases hpc : p c = true
      · rw [show markerGo h p .inRun (c :: z) = markerGo h p .inRun z by
          simp [markerGo, hpc]]
        rw [ih.2.2]
        conv_rhs => rw [pairCountP_cons, hpz c z hpc]
        omega
      · by_cases hc : c = h
        · rw [show markerGo h p .inRun (c :: z) = markerGo h p .afterH z by
            simp only [markerGo]
            rw [if_neg hpc, if_pos hc]]
          rw [ih.2.1, hc]
        · rw [show markerGo h p .inRun (c :: z) = c :: markerGo h p .norm z by
            simp [markerGo, hpc, hc]]
          rw [pairCountP_cons, pairCountP_cons,
            pairHead_markerGo_norm h p h2 p2 hp2h hp2q c z, ih.1]

end Migratiorm

/-- C7: `unifyPlaceholders` rewrites positional `$n`, named `:name`, and
at-markers `@name` (in that pass order) into bare `?`, and for every input the
number of `?` tokens in the output equals the number of placeholder tokens of
the input: pre-existing `?` tokens plus one per marker occurrence, where the
leftmost-greedy matches of each marker regex are in bijection with the
positions at which the marker head character is followed by one admissible
character. -/
theorem C7_unifyPlaceholders_count :
    (∀ l : List Char,
      (Migratiorm.unifyPlaceholders l).count '?' =
        Migratiorm.placeholderTokenCount l) ∧
    Migratiorm.unifyPlaceholders "$1".data = "?".data ∧
    Migratiorm.unifyPlaceholders ":id".data = "?".data ∧
    Migratiorm.unifyPlaceholders "@id".data = "?".data ∧
    Migratiorm.unifyPlaceholders "WHERE a = $1 AND b = :id AND c = @id".data =
      "WHERE a = ? AND b = ? AND c = ?".data ∧
    Migratiorm.placeholderTokenCount "WHERE a = $1 AND b = :id AND c = @id".data = 3 := by
  refine ⟨?_, by decide, by decide, by decide, by decide, by decide⟩
  intro l
  have e1 : (Migratiorm.markerGo '$' Migratiorm.isDigitChar .norm l).count '?' =
      l.count '?' + Migratiorm.pairCountP Migratiorm.dollarPair l := by
    rw [Migratiorm.markerGo_count '$' Migratiorm.isDigitChar (by decide) (by decide)
      l .norm]
    exact congrArg (l.count '?' + ·)
      (Migratiorm.markerCount_eq_pairCountP '$' Migratiorm.isDigitChar (by decide) l).1
  have e2 : Migratiorm.pairCountP Migratiorm.colonPair
      (Migratiorm.markerGo '$' Migratiorm.isDigitChar .norm l) =
      Migratiorm.pairCountP Migratiorm.colonPair l :=
    (Migratiorm.markerGo_pairCountP_other '$' Migratiorm.isDigitChar ':'
      Migratiorm.isWordChar (by decide) (by decide) (by decide) (by decide)
      (by decide) (by decide) l).1
  have e3 : Migratiorm.pairCountP Migratiorm.atPair
      (Migratiorm.markerGo '$' Migratiorm.isDigitChar .norm l) =
      Migratiorm.pairCountP Migratiorm.atPair l :=
    (Migratiorm.markerGo_pairCountP_other '$' Migratiorm.isDigitChar '@'
      Migratiorm.isWordChar (by decide) (by decide) (by decide) (by decide)
      (by decide) (by decide) l).1
  have e4 : (Migratiorm.markerGo ':' Migratiorm.isWordChar .norm
      (Migratiorm.markerGo '$' Migratiorm.isDigitChar .norm l)).count '?' =
      (Migratiorm.markerGo '$' Migratiorm.isDigitChar .norm l).count '?' +
        Migratiorm.pairCountP Migratiorm.colonPair
          (Migratiorm.markerGo '$' Migratiorm.isDigitChar .norm l) := by
    rw [Migratiorm.markerGo_count ':' Migratiorm.isWordChar (by decide) (by decide)
      _ .norm]
    exact congrArg (_ + ·)
      (Migratiorm.markerCount_eq_pairCountP ':' Migratiorm.isWordChar (by decide) _).1
  have e5 : Migratiorm.pairCountP Migratiorm.atPair
      (Migratiorm.markerGo ':' Migratiorm.isWordChar .norm
        (Migratiorm.markerGo '$' Migratiorm.isDigitChar .norm l)) =
      Migratiorm.pairCountP Migratiorm.atPair
        (Migratiorm.markerGo '$' Migratiorm.isDigitChar .norm l) :=
    (Migratiorm.markerGo_pairCountP_other ':' Migratiorm.isWordChar '@'
      Migratiorm.isWordChar (by decide) (by decide) (by decide) (by decide)
      (by decide) (by decide) _).1
  have e6 : (Migratiorm.markerGo '@' Migratiorm.isWordChar .norm
      (Migratiorm.markerGo ':' Migratiorm.isWordChar .norm
        (Migratiorm.markerGo '$' Migratiorm.isDigitChar .norm l))).count '?' =
      (Migratiorm.markerGo ':' Migratiorm.isWordChar .norm
        (Migratiorm.markerGo '$' Migratiorm.isDigitChar .norm l)).count '?' +
        Migratiorm.pairCountP Migratiorm.atPair
          (Migratiorm.markerGo ':' Migratiorm.isWordChar .norm
            (Migratiorm.markerGo '$' Migratiorm.isDigitChar .norm l)) := by
    rw [Migratiorm.markerGo_count '@' Migratiorm.isWordChar (by decide) (by decide)
      _ .norm]
    exact congrArg (_ + ·)
      (Migratiorm.markerCount_eq_pairCountP '@' Migratiorm.isWordChar (by decide) _).1
  show (Migratiorm.markerGo '@' Migratiorm.isWordChar .norm
      (Migratiorm.markerGo ':' Migratiorm.isWordChar .norm
        (Migratiorm.markerGo '$' Migratiorm.isDigitChar .norm l))).count '?' =
    l.count '?' + Migratiorm.pairCountP Migratiorm.dollarPair l +
      Migratiorm.pairCountP Migratiorm.colonPair l +
      Migratiorm.pairCountP Migratiorm.atPair l
  omega

/-! ## Helper lemmas for the INSERT column sort (C6) -/

namespace Migratiorm

/-- Scanning an empty text yields the empty text for any fuel. -/
theorem scanRepl_nil (m : List Char → Option (List Char × List Char)) :
    ∀ f : Nat, scanRepl m f [] = [] := by
  intro f
  cases f <;> rfl

/-- When the matcher consumes the whole text, the replace-all scan returns
just the replacement. -/
theorem scanRepl_total_match (m : List Char → Option (List Char × List Char))
    (c : Char) (r out : List Char) (h : m (c :: r) = some (out, [])) (f : Nat) :
    scanRepl m (f + 1) (c :: r) = out := by
  unfold scanRepl
  rw [h]
  show out ++ scanRepl m f [] = out
  rw [scanRepl_nil, List.append_nil]

/-- `parenGroup` on a well-formed group: nonempty inner text free of closing
parentheses. -/
theorem parenGroup_complete (g rest : List Char) (hne : g ≠ [])
    (hg : ∀ c ∈ g, c ≠ ')') :
    parenGroup ('(' :: (g ++ (')' :: rest))) = some (g, rest) := by
  unfold parenGroup
  have h1 : (g ++ (')' :: rest)).takeWhile (fun c => decide (c ≠ ')')) =
      g ++ ((')' :: rest).takeWhile (fun c => decide (c ≠ ')'))) :=
    List.takeWhile_append_of_pos (by
      intro c hc
      simpa using hg c hc)
  rw [show ((')' :: rest).takeWhile (fun c => decide (c ≠ ')'))) = [] by simp] at h1
  rw [List.append_nil] at h1
  simp only [h1]
  rw [if_neg (by simpa using hne)]
  rw [List.drop_left]
  rfl

/-- Irreflexivity of the Go string order. -/
theorem charListLt_irrefl : ∀ l : List Char, charListLt l l = false := by
  intro l
  induction l with
  | nil => rfl
  | cons c z ih => simp [charListLt, ih]

/-- Asymmetry of the Go string order. -/
theorem charListLt_asymm :
    ∀ a b : List Char, charListLt a b = true → charListLt b a = false := by
  intro a
  induction a with
  | nil =>
    intro b h
    cases b with
    | nil => cases h
    | cons c z => rfl
  | cons c z ih =>
    intro b h
    cases b with
    | nil => cases h
    | cons d w =>
      by_cases hcd : c = d
      · subst hcd
        simp only [charListLt, if_pos rfl] at h ⊢
        exact ih w h
      · simp only [charListLt, if_neg hcd, decide_eq_true_eq] at h
        rw [charListLt]
        rw [if_neg (Ne.symm hcd)]
        simpa using not_lt_of_lt h

/-- Transitivity of the Go string order. -/
theorem charListLt_trans :
    ∀ a b c : List Char, charListLt a b = true → charListLt b c = true →
      charListLt a c = true := by
  intro a
  induction a with
  | nil =>
    intro b c hab hbc
    cases b with
    | nil => cases hab
    | cons y ys =>
      cases c with
      | nil => cases hbc
      | cons z zs => rfl
  | cons x xs ih =>
    intro b c hab hbc
    cases b with
    | nil => cases hab
    | cons y ys =>
      cases c with
      | nil => cases hbc
      | cons z zs =>
        by_cases hxy : x = y
        · subst hxy
          simp only [charListLt, if_pos rfl] at hab
          by_cases hyz : x = z
          · subst hyz
            simp only [charListLt, if_pos rfl] at hbc ⊢
            exact ih ys zs hab hbc
          · simp only [charListLt, if_neg hyz] at hbc ⊢
            exact hbc
        · simp only [charListLt, if_neg hxy, decide_eq_true_eq] at hab
          by_cases hyz : y = z
          · rw [← hyz]
            rw [charListLt, if_neg hxy]
            simpa using hab
          · simp only [charListLt, if_neg hyz, decide_eq_true_eq] at hbc
            have hxz : x < z := lt_trans hab hbc
            rw [charListLt, if_neg (ne_of_lt hxz)]
            simpa using hxz

set_option maxHeartbeats 2000000 in
/-- The full INSERT template parses into its four groups. -/
theorem matchInsertCols_template (cols vals : List Char) (hc0 : cols ≠ [])
    (hc1 : ∀ c ∈ cols, c ≠ ')') (hv0 : vals ≠ []) (hv1 : ∀ c ∈ vals, c ≠ ')') :
    matchInsertCols ("INSERT INTO t (".data ++
        (cols ++ (')' :: (" VALUES (".data ++ (vals ++ [')']))))) =
      some (rebuildInsert "INSERT INTO t ".data cols " VALUES ".data vals, []) := by
  have hh : matchInsertHead ("INSERT INTO t (".data ++
      (cols ++ (')' :: (" VALUES (".data ++ (vals ++ [')']))))) =
      some ("INSERT INTO t ".data,
        '(' :: (cols ++ (')' :: (" VALUES (".data ++ (vals ++ [')']))))) := rfl
  have hg1 : parenGroup
      ('(' :: (cols ++ (')' :: (" VALUES (".data ++ (vals ++ [')']))))) =
      some (cols, " VALUES (".data ++ (vals ++ [')'])) :=
    parenGroup_complete cols _ hc0 hc1
  have hv : matchValuesSep (" VALUES (".data ++ (vals ++ [')'])) =
      some (" VALUES ".data, '(' :: (vals ++ [')'])) := rfl
  have hg2 : parenGroup ('(' :: (vals ++ [')'])) = some (vals, []) :=
    parenGroup_complete vals [] hv0 hv1
  rw [matchInsertCols, hh, Option.some_bind, hg1]
  rw [Option.some_bind, hv, Option.some_bind, hg2, Option.some_bind]

/-- Two lists not strictly ordered either way are equal (totality of the Go
string order). -/
theorem charListLt_eq_of_not :
    ∀ a b : List Char, charListLt a b = false → charListLt b a = false → a = b := by
  intro a
  induction a with
  | nil =>
    intro b hab _
    cases b with
    | nil => rfl
    | cons d w => cases hab
  | cons c z ih =>
    intro b hab hba
    cases b with
    | nil => cases hba
    | cons d w =>
      by_cases hcd : c = d
      · subst hcd
        simp only [charListLt, if_pos rfl] at hab hba
        rw [ih w hab hba]
      · simp only [charListLt, if_neg hcd, if_neg (Ne.symm hcd),
          decide_eq_false_iff_not] at hab hba
        exact absurd (lt_or_gt_of_ne hcd).elim (by
          intro hor
          exact hor (fun h => hab h) (fun h => hba h))

set_option maxHeartbeats 2000000 in
/-- The scanner applied to the full INSERT template rewrites it with the
rebuild closure. -/
theorem sortInsertColumns_template (cols vals : List Char) (hc0 : cols ≠ [])
    (hc1 : ∀ c ∈ cols, c ≠ ')') (hv0 : vals ≠ []) (hv1 : ∀ c ∈ vals, c ≠ ')') :
    sortInsertColumns ("INSERT INTO t (".data ++
        (cols ++ (')' :: (" VALUES (".data ++ (vals ++ [')']))))) =
      rebuildInsert "INSERT INTO t ".data cols " VALUES ".data vals := by
  have hm : matchInsertCols ('I' :: ("NSERT INTO t (".data ++
      (cols ++ (')' :: (" VALUES (".data ++ (vals ++ [')'])))))) =
      some (rebuildInsert "INSERT INTO t ".data cols " VALUES ".data vals, []) :=
    matchInsertCols_template cols vals hc0 hc1 hv0 hv1
  show scanRepl matchInsertCols
      (("NSERT INTO t (".data ++
        (cols ++ (')' :: (" VALUES (".data ++ (vals ++ [')']))))).length + 1)
      ('I' :: ("NSERT INTO t (".data ++
        (cols ++ (')' :: (" VALUES (".data ++ (vals ++ [')'])))))) = _
  exact scanRepl_total_match matchInsertCols 'I' _ _ hm _

end Migratiorm

/-- C6: the INSERT column sort pairs each column with its positional value,
sorts the pairs by column name in lexicographic order, and re-emits both
lists; on a count mismatch the statement is unchanged.  Shown on the claim's
concrete example, its mismatch variant, and on the generic statement template
`INSERT INTO t (cols) VALUES (vals)`: for mismatching comma-counts the stage
is the identity; for matching counts the output re-emits the sorted pairs,
which are a permutation of the original column-value pairs and are sorted by
column name. -/
theorem C6_sortInsertColumns :
    (Migratiorm.sortInsertColumns "INSERT INTO t (c, b, a) VALUES (?, ?, ?)".data =
      "INSERT INTO t (a, b, c) VALUES (?, ?, ?)".data) ∧
    (Migratiorm.sortInsertColumns "INSERT INTO t (c, b, a) VALUES (?, ?)".data =
      "INSERT INTO t (c, b, a) VALUES (?, ?)".data) ∧
    (∀ cols vals : List Char, cols ≠ [] → (∀ c ∈ cols, c ≠ ')') → vals ≠ [] →
      (∀ c ∈ vals, c ≠ ')') →
      (((Migratiorm.splitOnComma cols).map Migratiorm.trimSpace).length ≠
          ((Migratiorm.splitOnComma vals).map Migratiorm.trimSpace).length →
        Migratiorm.sortInsertColumns ("INSERT INTO t (".data ++
            (cols ++ (')' :: (" VALUES (".data ++ (vals ++ [')']))))) =
          "INSERT INTO t (".data ++
            (cols ++ (')' :: (" VALUES (".data ++ (vals ++ [')']))))) ∧
      (((Migratiorm.splitOnComma cols).map Migratiorm.trimSpace).length =
          ((Migratiorm.splitOnComma vals).map Migratiorm.trimSpace).length →
        Migratiorm.sortInsertColumns ("INSERT INTO t (".data ++
            (cols ++ (')' :: (" VALUES (".data ++ (vals ++ [')']))))) =
          "INSERT INTO t (".data ++
            (Migratiorm.joinSep ", ".data
              (((((Migratiorm.splitOnComma cols).map Migratiorm.trimSpace).zip
                  ((Migratiorm.splitOnComma vals).map Migratiorm.trimSpace)).insertionSort
                (fun a b => Migratiorm.charListLe a.1 b.1 = true)).map Prod.fst) ++
              (") VALUES (".data ++
                (Migratiorm.joinSep ", ".data
                  (((((Migratiorm.splitOnComma cols).map Migratiorm.trimSpace).zip
                      ((Migratiorm.splitOnComma vals).map Migratiorm.trimSpace)).insertionSort
                    (fun a b => Migratiorm.charListLe a.1 b.1 = true)).map Prod.snd) ++
                  [')']))) ∧
        ((((Migratiorm.splitOnComma cols).map Migratiorm.trimSpace).zip
            ((Migratiorm.splitOnComma vals).map Migratiorm.trimSpace)).insertionSort
          (fun a b => Migratiorm.charListLe a.1 b.1 = true)).Perm
          (((Migratiorm.splitOnComma cols).map Migratiorm.trimSpace).zip
            ((Migratiorm.splitOnComma vals).map Migratiorm.trimSpace)) ∧
        List.Sorted (fun a b => Migratiorm.charListLe a.1 b.1 = true)
          ((((Migratiorm.splitOnComma cols).map Migratiorm.trimSpace).zip
              ((Migratiorm.splitOnComma vals).map Migratiorm.trimSpace)).insertionSort
            (fun a b => Migratiorm.charListLe a.1 b.1 = true)))) := by
  refine ⟨by decide, by decide, ?_⟩
  intro cols vals hc0 hc1 hv0 hv1
  have hstage := Migratiorm.sortInsertColumns_template cols vals hc0 hc1 hv0 hv1
  haveI htot : IsTotal (List Char × List Char)
      (fun a b => Migratiorm.charListLe a.1 b.1 = true) := by
    constructor
    intro a b
    unfold Migratiorm.charListLe
    by_cases h : Migratiorm.charListLt b.1 a.1 = true
    · right
      rw [Migratiorm.charListLt_asymm b.1 a.1 h]
      rfl
    · left
      rw [Bool.not_eq_true] at h
      rw [h]
      rfl
  haveI htr : IsTrans (List Char × List Char)
      (fun a b => Migratiorm.charListLe a.1 b.1 = true) := by
    constructor
    intro a b c hab hbc
    unfold Migratiorm.charListLe at hab hbc ⊢
    rw [Bool.not_eq_true'] at hab hbc ⊢
    by_cases hca : Migratiorm.charListLt c.1 a.1 = true
    · by_cases hbc2 : Migratiorm.charListLt b.1 c.1 = true
      · have := Migratiorm.charListLt_trans b.1 c.1 a.1 hbc2 hca
        rw [this] at hab
        cases hab
      · rw [Bool.not_eq_true] at hbc2
        have := Migratiorm.charListLt_eq_of_not b.1 c.1 hbc2 hbc
        rw [← this] at hca
        rw [hca] at hab
        cases hab
    · rwa [Bool.not_eq_true] at hca
  refine ⟨?_, fun heq => ⟨?_, List.perm_insertionSort _ _,
    List.sorted_insertionSort _ _⟩⟩
  · intro hne
    rw [hstage]
    unfold Migratiorm.rebuildInsert
    rw [if_pos hne]
    rw [show ("INSERT INTO t (".data : List Char) =
        "INSERT INTO t ".data ++ ['('] from rfl]
    rw [show (" VALUES (".data : List Char) = " VALUES ".data ++ ['('] from rfl]
    simp [List.append_assoc]
  · rw [hstage]
    unfold Migratiorm.rebuildInsert
    rw [if_neg (by simpa using heq)]
    rw [show ("INSERT INTO t (".data : List Char) =
        "INSERT INTO t ".data ++ ['('] from rfl]
    rw [show (") VALUES (".data : List Char) =
        ')' :: (" VALUES ".data ++ ['(']) from rfl]
    simp [List.append_assoc]

/-- Witness for C6: the general part applied at concrete columns and a
mismatching value list, with every hypothesis discharged by `decide`. -/
theorem C6_sortInsertColumns_witness :
    Migratiorm.sortInsertColumns ("INSERT INTO t (".data ++
        ("c, b, a".data ++ (')' :: (" VALUES (".data ++ ("?, ?".data ++ [')']))))) =
      "INSERT INTO t (".data ++
        ("c, b, a".data ++ (')' :: (" VALUES (".data ++ ("?, ?".data ++ [')'])))) :=
  (C6_sortInsertColumns.2.2 "c, b, a".data "?, ?".data (by decide) (by decide)
    (by decide) (by decide)).1 (by decide)

namespace Migratiorm

/-- `extractQuoteGo` in scanning state passes over a prefix free of the open
character unchanged. -/
theorem extractQuoteGo_none_skip (oc cc : Char) (k : Nat) (pre rest : List Char)
    (h : ∀ c ∈ pre, c ≠ oc) :
    extractQuoteGo oc cc k none (pre ++ rest) =
      (pre ++ (extractQuoteGo oc cc k none rest).1,
       (extractQuoteGo oc cc k none rest).2.1,
       (extractQuoteGo oc cc k none rest).2.2) := by
  induction pre with
  | nil => simp
  | cons c pre ih =>
    have hc : c ≠ oc := h c (by simp)
    have ih' := ih (fun d hd => h d (by simp [hd]))
    simp only [List.cons_append, extractQuoteGo, List.append_eq]
    rw [if_neg hc, ih']

/-- A text free of the open character passes through `extractQuoteGo`
unchanged, recording nothing. -/
theorem extractQuoteGo_no_open (oc cc : Char) (k : Nat) (l : List Char)
    (h : ∀ c ∈ l, c ≠ oc) :
    extractQuoteGo oc cc k none l = (l, [], k) := by
  have := extractQuoteGo_none_skip oc cc k l [] h
  simpa [extractQuoteGo] using this

/-- Reading the open character switches `extractQuoteGo` to accumulation. -/
theorem extractQuoteGo_open (oc cc : Char) (k : Nat) (r : List Char) :
    extractQuoteGo oc cc k none (oc :: r) = extractQuoteGo oc cc k (some []) r := by
  simp only [extractQuoteGo]
  rw [if_true]

/-- In accumulation state, a span free of the close character is pushed onto
the accumulator. -/
theorem extractQuoteGo_inner (oc cc : Char) (k : Nat) :
    ∀ (w acc rest : List Char), (∀ c ∈ w, c ≠ cc) →
      extractQuoteGo oc cc k (some acc) (w ++ rest) =
        extractQuoteGo oc cc k (some (w.reverse ++ acc)) rest
  | [], acc, rest, _ => by simp
  | c :: w, acc, rest, h => by
    have hc : c ≠ cc := h c (by simp)
    simp only [List.cons_append, extractQuoteGo, List.append_eq]
    rw [if_neg hc]
    rw [extractQuoteGo_inner oc cc k w (c :: acc) rest (fun d hd => h d (by simp [hd]))]
    simp [List.append_assoc]

/-- Reading the close character over a nonempty accumulator emits the
placeholder and records the span. -/
theorem extractQuoteGo_close (oc cc : Char) (k : Nat) (a : Char) (acc rest : List Char) :
    extractQuoteGo oc cc k (some (a :: acc)) (cc :: rest) =
      (phStr k ++ (extractQuoteGo oc cc (k + 1) none rest).1,
       (k, (a :: acc).reverse) :: (extractQuoteGo oc cc (k + 1) none rest).2.1,
       (extractQuoteGo oc cc (k + 1) none rest).2.2) := by
  simp only [extractQuoteGo]
  rw [if_true]

end Migratiorm

namespace Migratiorm

/-- `litStartsWith` holds on a text beginning with the pattern itself. -/
theorem litStartsWith_self_append (n t : List Char) :
    litStartsWith n (n ++ t) = true := by
  induction n with
  | nil => rfl
  | cons c n ih => simp [litStartsWith, ih]

/-- `replaceFirst` passes unchanged over a prefix free of the needle's first
character. -/
theorem replaceFirst_skip (n0 : Char) (ns rep : List Char) :
    ∀ pre rest : List Char, (∀ c ∈ pre, c ≠ n0) →
      replaceFirst (n0 :: ns) rep (pre ++ rest) =
        pre ++ replaceFirst (n0 :: ns) rep rest
  | [], rest, _ => by simp
  | c :: pre, rest, h => by
    have hc : c ≠ n0 := h c (by simp)
    simp only [List.cons_append, replaceFirst, litStartsWith, List.append_eq]
    rw [if_neg (by simp [Ne.symm hc])]
    rw [replaceFirst_skip n0 ns rep pre rest (fun d hd => h d (by simp [hd]))]

/-- `replaceFirst` at an occurrence of the needle replaces it. -/
theorem replaceFirst_match (n0 : Char) (ns rep post : List Char) :
    replaceFirst (n0 :: ns) rep ((n0 :: ns) ++ post) = rep ++ post := by
  simp only [List.cons_append, replaceFirst]
  rw [if_pos (by simpa using litStartsWith_self_append (n0 :: ns) post)]
  simp

/-- The double-quote extraction pass on the statement template
`set "w" = "w" + 1`: both quoted spans become placeholders 0 and 1 and are
recorded in order. -/
theorem extractQuoteGo_dq_template (w : List Char) (hw0 : w ≠ [])
    (hwq : ∀ c ∈ w, c ≠ '"') :
    extractQuoteGo '"' '"' 0 none
        ("set ".data ++ '"' :: (w ++ '"' ::
          (" = ".data ++ '"' :: (w ++ '"' :: " + 1".data)))) =
      ("set ".data ++ (phStr 0 ++ (" = ".data ++ (phStr 1 ++ " + 1".data))),
       [(0, w), (1, w)], 2) := by
  obtain ⟨a, t, ht⟩ : ∃ a t, w.reverse ++ ([] : List Char) = a :: t := by
    cases hrev : w.reverse with
    | nil =>
      exact absurd (by simpa using congrArg List.reverse hrev) hw0
    | cons a t => exact ⟨a, t, by simp [hrev]⟩
  have hwrev : (a :: t).reverse = w := by
    have h2 : w.reverse = a :: t := by simpa using ht
    rw [← h2, List.reverse_reverse]
  rw [extractQuoteGo_none_skip '"' '"' 0 "set ".data _ (by decide)]
  rw [extractQuoteGo_open]
  rw [extractQuoteGo_inner '"' '"' 0 w [] _ hwq]
  rw [ht, extractQuoteGo_close]
  rw [extractQuoteGo_none_skip '"' '"' 1 " = ".data _ (by decide)]
  rw [extractQuoteGo_open]
  rw [extractQuoteGo_inner '"' '"' 1 w [] _ hwq]
  rw [ht, extractQuoteGo_close]
  rw [extractQuoteGo_no_open '"' '"' 2 " + 1".data (by decide)]
  simp [hwrev]

end Migratiorm

namespace Migratiorm

/-- `removeQuotesPreservingCase` on the statement template
`set "w" = "w" + 1` for a nonempty lowercase-letter identifier `w` (possibly
keyword-spelled): the bare keyword `set` is uppercased while both quoted
occurrences of `w` are restored verbatim, quotes removed. -/
theorem removeQuotesPreservingCase_template (w : List Char) (hw0 : w ≠ [])
    (hw : ∀ c ∈ w, 'a' ≤ c ∧ c ≤ 'z') :
    removeQuotesPreservingCase ("set ".data ++ '"' :: (w ++ '"' ::
        (" = ".data ++ '"' :: (w ++ '"' :: " + 1".data)))) =
      "SET ".data ++ (w ++ (" = ".data ++ (w ++ " + 1".data))) := by
  have hbq : ∀ c ∈ w, c ≠ '\x60' := fun c hc he => by
    have h1 := (hw c hc).1
    subst he
    exact absurd h1 (by decide)
  have hq : ∀ c ∈ w, c ≠ '"' := fun c hc he => by
    have h1 := (hw c hc).1
    subst he
    exact absurd h1 (by decide)
  have hus : ∀ c ∈ w, c ≠ '_' := fun c hc he => by
    have h1 := (hw c hc).1
    subst he
    exact absurd h1 (by decide)
  have h1 : extractQuoteGo '\x60' '\x60' 0 none ("set ".data ++ '"' :: (w ++ '"' ::
      (" = ".data ++ '"' :: (w ++ '"' :: " + 1".data)))) =
      ("set ".data ++ '"' :: (w ++ '"' ::
        (" = ".data ++ '"' :: (w ++ '"' :: " + 1".data))), [], 0) :=
    extractQuoteGo_no_open _ _ _ _
      (List.forall_mem_append.mpr ⟨by decide, List.forall_mem_cons.mpr ⟨by decide,
        List.forall_mem_append.mpr ⟨hbq, List.forall_mem_cons.mpr ⟨by decide,
          List.forall_mem_append.mpr ⟨by decide, List.forall_mem_cons.mpr ⟨by decide,
            List.forall_mem_append.mpr ⟨hbq, List.forall_mem_cons.mpr ⟨by decide,
              by decide⟩⟩⟩⟩⟩⟩⟩⟩)
  have h2 := extractQuoteGo_dq_template w hw0 hq
  have h3 : extractQuoteGo '[' ']' 2 none
      ("set ".data ++ (phStr 0 ++ (" = ".data ++ (phStr 1 ++ " + 1".data)))) =
      ("set ".data ++ (phStr 0 ++ (" = ".data ++ (phStr 1 ++ " + 1".data))), [], 2) := by
    decide
  have h4 : uppercaseKeywords
      ("set ".data ++ (phStr 0 ++ (" = ".data ++ (phStr 1 ++ " + 1".data)))) =
      "SET ".data ++ (phStr 0 ++ (" = ".data ++ (phStr 1 ++ " + 1".data))) := by
    decide
  have r1 : replaceFirst (phStr 0) w
      ("SET ".data ++ (phStr 0 ++ (" = ".data ++ (phStr 1 ++ " + 1".data)))) =
      "SET ".data ++ (w ++ (" = ".data ++ (phStr 1 ++ " + 1".data))) := by
    rw [show phStr 0 = '_' :: "_QUOTED_0__".data by decide]
    rw [replaceFirst_skip '_' "_QUOTED_0__".data w "SET ".data _ (by decide)]
    rw [replaceFirst_match]
  have r2 : replaceFirst (phStr 1) w
      ("SET ".data ++ (w ++ (" = ".data ++ (phStr 1 ++ " + 1".data)))) =
      "SET ".data ++ (w ++ (" = ".data ++ (w ++ " + 1".data))) := by
    rw [show phStr 1 = '_' :: "_QUOTED_1__".data by decide]
    rw [replaceFirst_skip '_' "_QUOTED_1__".data w "SET ".data _ (by decide)]
    rw [replaceFirst_skip '_' "_QUOTED_1__".data w w _ hus]
    rw [replaceFirst_skip '_' "_QUOTED_1__".data w " = ".data _ (by decide)]
    rw [replaceFirst_match]
  simp only [removeQuotesPreservingCase, removeQuotesPreservingCaseOrd]
  rw [h1, h2, h3]
  simp only [List.nil_append, List.append_nil, id_eq, List.foldl]
  rw [h4, r1, r2]

end Migratiorm

/-- C1: with quote removal and keyword case-folding both enabled, quoted
identifiers keep their original casing while bare keywords are uppercased:
quoted spans become opaque placeholder tokens, keyword folding runs on the
remaining text, and the original inner text is substituted back unmodified.
Shown (i) on the claim's concrete query under the default options, (ii) on the
same query under the reversed placeholder-map iteration order, and (iii)
generically: for every nonempty lowercase-letter identifier `w` — including
keyword spellings such as `count` or `set` — the case-preserving pass maps
`set "w" = "w" + 1` to `SET w = w + 1`, uppercasing the bare keyword and
restoring `w` verbatim. -/
theorem C1_quoted_case_preserved :
    (Migratiorm.Normalize Migratiorm.DefaultOptions
        "UPDATE users SET \"count\" = \"count\" + 1, name = ? WHERE id = ?".data =
      "UPDATE users SET count = count + 1, name = ? WHERE id = ?".data) ∧
    (Migratiorm.NormalizeOrd List.reverse Migratiorm.DefaultOptions
        "UPDATE users SET \"count\" = \"count\" + 1, name = ? WHERE id = ?".data =
      "UPDATE users SET count = count + 1, name = ? WHERE id = ?".data) ∧
    (∀ w : List Char, w ≠ [] → (∀ c ∈ w, 'a' ≤ c ∧ c ≤ 'z') →
      Migratiorm.removeQuotesPreservingCase ("set ".data ++ '"' :: (w ++ '"' ::
          (" = ".data ++ '"' :: (w ++ '"' :: " + 1".data)))) =
        "SET ".data ++ (w ++ (" = ".data ++ (w ++ " + 1".data)))) :=
  ⟨by decide, by decide,
   fun w hw0 hw => Migratiorm.removeQuotesPreservingCase_template w hw0 hw⟩

/-- Witness for C1: the generic part applied at the keyword-spelled
identifier `count`, hypotheses discharged by `decide`. -/
theorem C1_quoted_case_preserved_witness :
    Migratiorm.removeQuotesPreservingCase ("set ".data ++ '"' :: ("count".data ++ '"' ::
        (" = ".data ++ '"' :: ("count".data ++ '"' :: " + 1".data)))) =
      "SET ".data ++ ("count".data ++ (" = ".data ++ ("count".data ++ " + 1".data))) :=
  C1_quoted_case_preserved.2.2 "count".data (by decide) (by decide)
